import Mathlib

/-!
Shallow embedding of the MazeLearner core:
  * the Q-learning agent of src/MazeLearner/client/src/lib/q-learning.ts
  * the maze generator of src/lib/maze-generator.ts (src/unnamed/part_001)

Conventions of the embedding:
  * JS numbers carrying Q-values, rewards and rates become Rat (the source
    computes with ordinary arithmetic expressions; we verify those expressions
    over exact rationals).
  * Grid coordinates become Int (moves such as y - 1 may leave Nat range).
  * A JS object used as a string-keyed record becomes an insertion-ordered
    association list; a JS Map becomes the same, with Map.set replacing an
    existing key in place (preserving iteration order) and appending otherwise.
  * Math.random() becomes an explicit stream rng : Nat -> Rat together with a
    running index counting the draws consumed so far; Math.random()'s contract
    (values in [0,1)) appears as a hypothesis where a theorem needs it.
  * Out-of-range reads (JS undefined) are mapped to defaults that no strict
    comparison of the source can mistake for a real cell value; every such
    read site in the source is guarded by a bounds check.
-/

attribute [local semireducible] Rat.add Rat.mul Rat.sub

namespace MazeRL

/-- The fixed action list of the agent, in declaration order
(field `actions` of QLearningAgent, q-learning.ts line 32). -/
def actions : List String := ["up", "right", "down", "left"]

/-- A JS object mapping action names to Q-values (interface QTableEntry),
as an insertion-ordered association list. -/
abbrev QTableEntry := List (String × Rat)

/-- The agent's Map from state keys to entries. -/
abbrev QTable := List (String × QTableEntry)

/-- Read qValues[action]. A missing key is JS undefined; every read in the
source happens after lazy initialization, so the default 0 is never hit. -/
def entryGet : QTableEntry → String → Rat
  | [], _ => 0
  | (b, w) :: t, a => if b = a then w else entryGet t a

/-- Write qValues[action] = v: replace in place if the key exists (JS objects
keep the original insertion position), append otherwise. -/
def entrySet : QTableEntry → String → Rat → QTableEntry
  | [], a, v => [(a, v)]
  | (b, w) :: t, a, v => if b = a then (a, v) :: t else (b, w) :: entrySet t a v

/-- Object.values(qValues), in insertion order. -/
def entryValues (e : QTableEntry) : List Rat := e.map Prod.snd

/-- this.qTable.get(key). -/
def tableGet? : QTable → String → Option QTableEntry
  | [], _ => none
  | (k, e) :: t, s => if k = s then some e else tableGet? t s

/-- this.qTable.set(key, entry) with JS Map semantics. -/
def tableSet : QTable → String → QTableEntry → QTable
  | [], s, e => [(s, e)]
  | (k, f) :: t, s, e => if k = s then (s, e) :: t else (k, f) :: tableSet t s e

/-- this.qTable.has(key). -/
def tableHas (t : QTable) (s : String) : Bool := (tableGet? t s).isSome

/-- Math.max(...list): the fold the spread performs. Every call site in the
source passes the values of a lazily initialized entry, so the list is
nonempty and the 0 returned for [] is never produced. -/
def listMax : List Rat → Rat
  | [] => 0
  | v :: vs => vs.foldl max v

/-- The agent's state (class QLearningAgent): the Map together with the
mutable configuration. The constant `actions` field lives as the global
definition above. -/
structure QLearningAgent where
  qTable : QTable
  learningRate : Rat
  discountFactor : Rat
  explorationRate : Rat
  mazeSize : Nat
deriving Repr, DecidableEq

/-- The constructor (q-learning.ts lines 21-33): stores its parameters
verbatim, with an empty table. It performs no validation. -/
def mkQLearningAgent (mazeSize : Nat) (learningRate discountFactor explorationRate : Rat) :
    QLearningAgent :=
  { qTable := []
    learningRate := learningRate
    discountFactor := discountFactor
    explorationRate := explorationRate
    mazeSize := mazeSize }

/-- getStateKey: the template string `x,y`. -/
def getStateKey (x y : Int) : String := toString x ++ "," ++ toString y

/-- The fully populated fresh entry built by the forEach of
initializeQValues: every action set to 0 in declaration order. -/
def freshEntry : QTableEntry := actions.foldl (fun e a => entrySet e a 0) []

/-- initializeQValues (q-learning.ts lines 39-47): if the key is absent,
install the fresh all-zero entry. -/
def initQValues (t : QTable) (s : String) : QTable :=
  if tableHas t s then t else tableSet t s freshEntry

/-- The exploitation fold of chooseAction (lines 59-68): start from
actions[0] and its value, replace on strictly greater. -/
def greedyAction (e : QTableEntry) : String :=
  (actions.foldl
    (fun best a => if entryGet e a > best.2 then (a, entryGet e a) else best)
    (actions.headD "up", entryGet e (actions.headD "up"))).1

/-- chooseAction (lines 49-72). The first draw decides exploration; the
exploration branch consumes a second draw to pick the random action. Returns
the action, the agent after lazy initialization, and the next rng index. -/
def chooseAction (ag : QLearningAgent) (x y : Int) (rng : Nat → Rat) (i : Nat) :
    String × QLearningAgent × Nat :=
  let stateKey := getStateKey x y
  let t := initQValues ag.qTable stateKey
  let ag2 := { ag with qTable := t }
  if rng i < ag2.explorationRate then
    (actions.getD (rng (i + 1) * (actions.length : Rat)).floor.toNat "up", ag2, i + 2)
  else
    let qValues := (tableGet? t stateKey).getD []
    (greedyAction qValues, ag2, i + 1)

/-- getNextPosition (lines 74-87). -/
def getNextPosition (x y : Int) (action : String) : Int × Int :=
  match action with
  | "up" => (x, y - 1)
  | "right" => (x + 1, y)
  | "down" => (x, y + 1)
  | "left" => (x - 1, y)
  | _ => (x, y)

/-- Read maze[y][x]. Out of range on either axis is JS undefined, which no
=== 0 comparison matches; the default 1 has the same property. -/
def getCell (maze : List (List Nat)) (x y : Int) : Nat :=
  if 0 ≤ x ∧ 0 ≤ y then (maze.getD y.toNat []).getD x.toNat 1 else 1

/-- isValidMove (lines 89-97): inside the size x size square and on an OPEN
(=== 0) cell. -/
def isValidMove (mazeSize : Nat) (x y : Int) (maze : List (List Nat)) : Bool :=
  decide (0 ≤ x ∧ x < (mazeSize : Int) ∧ 0 ≤ y ∧ y < (mazeSize : Int) ∧
    getCell maze x y = 0)

/-- calculateReward (lines 99-120): -10 on an invalid candidate, 100 on the
goal, -1 otherwise. -/
def calculateReward (ag : QLearningAgent) (_x _y newX newY : Int)
    (maze : List (List Nat)) (goalX goalY : Int) : Rat :=
  if isValidMove ag.mazeSize newX newY maze = false then -10
  else if newX = goalX ∧ newY = goalY then 100
  else -1

/-- updateQValue (lines 122-138): lazily initialize both states, then apply
the one-step Q-learning rule at (state, action). -/
def updateQValue (ag : QLearningAgent) (state action : String) (reward : Rat)
    (nextState : String) : QLearningAgent :=
  let t := initQValues ag.qTable state
  let t2 := initQValues t nextState
  let currentQ := entryGet ((tableGet? t2 state).getD []) action
  let nextQValues := (tableGet? t2 nextState).getD []
  let maxNextQ := listMax (entryValues nextQValues)
  let newQ := currentQ + ag.learningRate * (reward + ag.discountFactor * maxNextQ - currentQ)
  { ag with qTable := tableSet t2 state (entrySet ((tableGet? t2 state).getD []) action newQ) }

/-- EpisodeResult (q-learning.ts lines 5-11). -/
structure EpisodeResult where
  success : Bool
  steps : Nat
  totalReward : Rat
  finalPosition : Int × Int
  path : List (Int × Int)
deriving Repr, DecidableEq

/-- The mutable locals of the runEpisode loop. -/
structure StepState where
  x : Int
  y : Int
  totalReward : Rat
  path : List (Int × Int)
  agent : QLearningAgent
  i : Nat
deriving Repr

/-- One iteration of the runEpisode while-loop body (lines 152-181): choose
an action, form the candidate, compute the reward against the candidate,
advance only on a valid move, update the Q-value on the actual next state,
and append the resulting position to the path. -/
def stepOnce (maze : List (List Nat)) (goal : Int × Int) (rng : Nat → Rat)
    (s : StepState) : StepState :=
  let currentState := getStateKey s.x s.y
  let c := chooseAction s.agent s.x s.y rng s.i
  let action := c.1
  let ag1 := c.2.1
  let i1 := c.2.2
  let nextPos := getNextPosition s.x s.y action
  let reward := calculateReward ag1 s.x s.y nextPos.1 nextPos.2 maze goal.1 goal.2
  let valid := isValidMove ag1.mazeSize nextPos.1 nextPos.2 maze
  let ax := if valid then nextPos.1 else s.x
  let ay := if valid then nextPos.2 else s.y
  let nextState := getStateKey ax ay
  let ag2 := updateQValue ag1 currentState action reward nextState
  { x := ax
    y := ay
    totalReward := s.totalReward + reward
    path := s.path ++ [(ax, ay)]
    agent := ag2
    i := i1 }

/-- The while-loop of runEpisode, by recursion on the remaining step budget;
steps counts the iterations already executed. The goal test happens right
after the step, exactly where line 183 performs it. -/
def runLoop (maze : List (List Nat)) (goal : Int × Int) (rng : Nat → Rat) :
    Nat → Nat → StepState → EpisodeResult × QLearningAgent
  | 0, steps, s =>
    ({ success := false, steps := steps, totalReward := s.totalReward
       finalPosition := (s.x, s.y), path := s.path }, s.agent)
  | remaining + 1, steps, s =>
    let s2 := stepOnce maze goal rng s
    if s2.x = goal.1 ∧ s2.y = goal.2 then
      ({ success := true, steps := steps + 1, totalReward := s2.totalReward
         finalPosition := (s2.x, s2.y), path := s2.path }, s2.agent)
    else
      runLoop maze goal rng remaining (steps + 1) s2

/-- runEpisode (lines 140-201). The path starts with the starting position;
the result carries both the EpisodeResult and the mutated agent. -/
def runEpisode (ag : QLearningAgent) (maze : List (List Nat))
    (startPos goalPos : Int × Int) (maxSteps : Nat) (rng : Nat → Rat) (i : Nat) :
    EpisodeResult × QLearningAgent :=
  runLoop maze goalPos rng maxSteps 0
    { x := startPos.1, y := startPos.2, totalReward := 0
      path := [(startPos.1, startPos.2)], agent := ag, i := i }

/-- getQValues (lines 203-205): read-only lookup, null when unseen. -/
def getQValues (ag : QLearningAgent) (stateKey : String) : Option QTableEntry :=
  tableGet? ag.qTable stateKey

/-- getStatesExplored (lines 207-209): the Map size. -/
def getStatesExplored (ag : QLearningAgent) : Nat := ag.qTable.length

/-- getTotalQValues (lines 211-217): total count of stored action-values. -/
def getTotalQValues (ag : QLearningAgent) : Nat :=
  ag.qTable.foldl (fun total p => total + p.2.length) 0

/-- The loop body of getMaxQValue: replace the accumulator on a strictly
larger per-entry maximum. -/
def maxStep (maxQ : Rat) (p : String × QTableEntry) : Rat :=
  if listMax (entryValues p.2) > maxQ then listMax (entryValues p.2) else maxQ

/-- getMaxQValue (lines 219-228): fold of the loop body starting from 0. -/
def getMaxQValue (ag : QLearningAgent) : Rat :=
  ag.qTable.foldl maxStep 0

/-- updateParameters (lines 230-238). -/
def updateParameters (ag : QLearningAgent) (lr df er : Option Rat) : QLearningAgent :=
  { ag with
    learningRate := lr.getD ag.learningRate
    discountFactor := df.getD ag.discountFactor
    explorationRate := er.getD ag.explorationRate }

/-- exportQTable (lines 240-246): a plain copy of the table. -/
def exportQTable (ag : QLearningAgent) : QTable := ag.qTable

/-- reset (lines 248-250): clears the table only. -/
def reset (ag : QLearningAgent) : QLearningAgent := { ag with qTable := [] }

/-! ## Maze generator (src/unnamed/part_001, class MazeGenerator) -/

/-- The shared direction table (up, right, down, left) used by the carver,
the neighbor counter and the breadth-first search. -/
def directions : List (Int × Int) := [(0, -1), (1, 0), (0, 1), (-1, 0)]

/-- isValidPosition (part_001 lines 212-214). -/
def isValidPosition (size : Nat) (x y : Int) : Bool :=
  decide (0 ≤ x ∧ x < (size : Int) ∧ 0 ≤ y ∧ y < (size : Int))

/-- Write maze[y][x] = v. Every write site in the source is in range; List.set
leaves the grid unchanged out of range. -/
def set2d (m : List (List Nat)) (x y : Int) (v : Nat) : List (List Nat) :=
  if 0 ≤ x ∧ 0 ≤ y then m.set y.toNat ((m.getD y.toNat []).set x.toNat v) else m

/-- Read visited[y][x]; out-of-range reads never reach the source's uses. -/
def getVis (vis : List (List Bool)) (x y : Int) : Bool :=
  if 0 ≤ x ∧ 0 ≤ y then (vis.getD y.toNat []).getD x.toNat true else true

/-- Write visited[y][x] = b. -/
def setVis (vis : List (List Bool)) (x y : Int) (b : Bool) : List (List Bool) :=
  if 0 ≤ x ∧ 0 ≤ y then vis.set y.toNat ((vis.getD y.toNat []).set x.toNat b) else vis

/-- countAdjacentPaths (lines 124-139). -/
def countAdjacentPaths (size : Nat) (m : List (List Nat)) (x y : Int) : Nat :=
  directions.foldl
    (fun count d =>
      if isValidPosition size (x + d.1) (y + d.2) ∧ getCell m (x + d.1) (y + d.2) = 0 then
        count + 1
      else count) 0

/-- The mutable state of the backtracker loop (lines 40-77): the grid, the
visited flags, the explicit stack (head is the most recently pushed cell),
the current cell and the rng index. -/
structure CarveState where
  maze : List (List Nat)
  visited : List (List Bool)
  stack : List (Int × Int)
  cx : Int
  cy : Int
  i : Nat

/-- Math.floor(r * n) as a Nat index (the source only uses it with
r ∈ [0,1), so the result is < n). -/
def randIdx (r : Rat) (n : Nat) : Nat := (r * (n : Rat)).floor.toNat

/-- One pass of the do-while body (lines 41-76): collect unvisited
two-step neighbors, then either carve toward a randomly chosen one (one
rng draw) or backtrack by popping the stack. -/
def carveBody (size : Nat) (rng : Nat → Rat) (s : CarveState) : CarveState :=
  let neighbors := directions.filterMap
    (fun d =>
      let nx := s.cx + d.1 * 2
      let ny := s.cy + d.2 * 2
      if isValidPosition size nx ny ∧ getVis s.visited nx ny = false then
        some (nx, ny, s.cx + d.1, s.cy + d.2)
      else none)
  if neighbors ≠ [] then
    let n := neighbors.getD (randIdx (rng s.i) neighbors.length) (0, 0, 0, 0)
    { maze := set2d (set2d s.maze n.2.2.1 n.2.2.2 0) n.1 n.2.1 0
      visited := setVis s.visited n.1 n.2.1 true
      stack := (s.cx, s.cy) :: s.stack
      cx := n.1
      cy := n.2.1
      i := s.i + 1 }
  else
    match s.stack with
    | [] => s
    | p :: rest => { s with stack := rest, cx := p.1, cy := p.2 }

/-- The do-while loop (lines 40-77), fueled: the loop body runs, then the
loop continues while the stack is nonempty. The fuel passed by generateMaze
(2*size*size + 1) dominates the loop's iteration count, since every
iteration either visits a fresh cell or pops the stack. -/
def carveLoop (size : Nat) (rng : Nat → Rat) : Nat → CarveState → CarveState
  | 0, s => s
  | fuel + 1, s =>
    let s2 := carveBody size rng s
    if s2.stack.isEmpty then s2 else carveLoop size rng fuel s2

/-- applyWallDensityModification (lines 97-122): for each interior cell that
is still a wall and not within distance 2 of start or goal, draw once and
open the cell when the draw beats the removal probability and fewer than 3
neighbors are already open. Returns the grid and the next rng index. -/
def applyWallDensityModification (size : Nat) (wallDensity : Rat)
    (startP goalP : Int × Int) (rng : Nat → Rat) (m0 : List (List Nat)) (i0 : Nat) :
    List (List Nat) × Nat :=
  let removalProbability := max (mkRat 1 10) ((1 - wallDensity) * mkRat 3 10)
  ((List.range (size - 2)).map (fun k => (k : Int) + 1)).foldl
    (fun (acc : List (List Nat) × Nat) y =>
      ((List.range (size - 2)).map (fun k => (k : Int) + 1)).foldl
        (fun (acc2 : List (List Nat) × Nat) x =>
          let m := acc2.1
          let i := acc2.2
          if getCell m x y = 0 then (m, i)
          else if ((x - startP.1).natAbs ≤ 2 ∧ (y - startP.2).natAbs ≤ 2) ∨
              ((x - goalP.1).natAbs ≤ 2 ∧ (y - goalP.2).natAbs ≤ 2) then (m, i)
          else
            let adjacentPaths := countAdjacentPaths size m x y
            if rng i < removalProbability ∧ adjacentPaths < 3 then
              (set2d m x y 0, i + 1)
            else (m, i + 1)) acc) (m0, i0)

/-- ensureConnectivity (lines 141-154): size/10 iterations, each drawing an
interior cell (two rng draws) and opening it when it is a wall with at least
two open neighbors. -/
def ensureConnectivity (size : Nat) (rng : Nat → Rat) (m0 : List (List Nat)) (i0 : Nat) :
    List (List Nat) × Nat :=
  let numConnections := ((size : Rat) * mkRat 1 10).floor.toNat
  (List.range numConnections).foldl
    (fun (acc : List (List Nat) × Nat) _ =>
      let m := acc.1
      let i := acc.2
      let x : Int := (randIdx (rng i) (size - 2) : Int) + 1
      let y : Int := (randIdx (rng (i + 1)) (size - 2) : Int) + 1
      if getCell m x y = 1 ∧ countAdjacentPaths size m x y ≥ 2 then
        (set2d m x y 0, i + 2)
      else (m, i + 2)) (m0, i0)

/-- One dequeue step of the breadth-first search (lines 168-186): push the
unvisited open neighbors of the dequeued cell. -/
def bfsExpand (size : Nat) (m : List (List Nat)) (c : Int × Int)
    (acc : List (List Bool) × List (Int × Int)) : List (List Bool) × List (Int × Int) :=
  directions.foldl
    (fun (st : List (List Bool) × List (Int × Int)) d =>
      let nx := c.1 + d.1
      let ny := c.2 + d.2
      if isValidPosition size nx ny ∧ getVis st.1 nx ny = false ∧ getCell m nx ny = 0 then
        (setVis st.1 nx ny true, st.2 ++ [(nx, ny)])
      else st) acc

/-- The BFS while-loop, fueled; the fuel passed by hasPath dominates the
loop's iteration count (each iteration dequeues, and enqueues only cells it
freshly marks visited, so iterations ≤ visited marks + initial queue). -/
def bfsLoop (size : Nat) (m : List (List Nat)) (goal : Int × Int) :
    Nat → List (List Bool) → List (Int × Int) → Bool
  | _, _, [] => false
  | 0, _, _ :: _ => false
  | fuel + 1, vis, c :: queue =>
    if c = goal then true
    else
      let st := bfsExpand size m c (vis, queue)
      bfsLoop size m goal fuel st.1 st.2

/-- hasPath (lines 156-189): BFS from the start over OPEN cells with
4-directional adjacency; true iff the goal is dequeued. -/
def hasPath (size : Nat) (m : List (List Nat)) (startP goalP : Int × Int) : Bool :=
  bfsLoop size m goalP (2 * size * size + 1)
    (setVis (List.replicate size (List.replicate size false)) startP.1 startP.2 true)
    [startP]

/-- createPathToGoal (lines 191-210) for the class's fixed start (0,0):
open the top row up to the goal column, then that column down to the goal
row, then the goal cell itself. -/
def createPathToGoal (m : List (List Nat)) (goalP : Int × Int) : List (List Nat) :=
  let m1 := (List.range goalP.1.toNat).foldl (fun mm (k : Nat) => set2d mm (k : Int) 0 0) m
  let m2 := (List.range goalP.2.toNat).foldl (fun mm (k : Nat) => set2d mm goalP.1 (k : Int) 0) m1
  set2d m2 goalP.1 goalP.2 0

/-- Lines 17-88 of generateMaze: all-walls grid, backtracking carver from
(0,0), density relaxation, forced-open start and goal, connectivity boost.
Named separately so theorems can speak about the grid reaching the final
reachability check on line 90. -/
def preMaze (size : Nat) (wallDensity : Rat) (rng : Nat → Rat) : List (List Nat) :=
  let startP : Int × Int := (0, 0)
  let goalP : Int × Int := ((size : Int) - 1, (size : Int) - 1)
  let maze0 := set2d (List.replicate size (List.replicate size 1)) 0 0 0
  let vis0 := setVis (List.replicate size (List.replicate size false)) 0 0 true
  let s := carveLoop size rng (2 * size * size + 1)
    { maze := maze0, visited := vis0, stack := [], cx := 0, cy := 0, i := 0 }
  let md := applyWallDensityModification size wallDensity startP goalP rng s.maze s.i
  let m2 := set2d (set2d md.1 startP.1 startP.2 0) goalP.1 goalP.2 0
  (ensureConnectivity size rng m2 md.2).1

/-- generateMaze (lines 16-95): the carving and relaxation passes followed by
the final reachability check with the deterministic L-shaped repair
(lines 89-94). -/
def generateMaze (size : Nat) (wallDensity : Rat) (rng : Nat → Rat) : List (List Nat) :=
  let startP : Int × Int := (0, 0)
  let goalP : Int × Int := ((size : Int) - 1, (size : Int) - 1)
  let m := preMaze size wallDensity rng
  if hasPath size m startP goalP then m else createPathToGoal m goalP

/-- The MazeGenerator instance fields. -/
structure MazeGenerator where
  maze : List (List Nat)
  size : Nat
  wallDensity : Rat
  startPosition : Int × Int
  goalPosition : Int × Int
deriving Repr

/-- The constructor (part_001 lines 8-14): stores size and density verbatim,
fixes start (0,0) and goal (size-1, size-1), and generates the grid. It
performs no validation. -/
def mkMazeGenerator (size : Nat) (wallDensity : Rat) (rng : Nat → Rat) : MazeGenerator :=
  { maze := generateMaze size wallDensity rng
    size := size
    wallDensity := wallDensity
    startPosition := (0, 0)
    goalPosition := ((size : Int) - 1, (size : Int) - 1) }

/-- isWall (lines 232-235). -/
def isWall (g : MazeGenerator) (x y : Int) : Bool :=
  if isValidPosition g.size x y = false then true else decide (getCell g.maze x y = 1)

/-- isGoal (lines 237-239). -/
def isGoal (g : MazeGenerator) (x y : Int) : Bool :=
  decide (x = g.goalPosition.1 ∧ y = g.goalPosition.2)

/-! ## Specification-side definitions, used to state the claims -/

/-- The stored value of Q(s,a), 0 when the state or action is absent. -/
def qVal (ag : QLearningAgent) (s a : String) : Rat :=
  entryGet ((tableGet? ag.qTable s).getD []) a

/-- An entry is fully populated: its keys are exactly the four actions in
declaration order. -/
def entryWF (e : QTableEntry) : Prop := e.map Prod.fst = actions

instance (e : QTableEntry) : Decidable (entryWF e) := by
  unfold entryWF; infer_instance

/-- Every entry of a table is fully populated. -/
def tableWF (t : QTable) : Prop := ∀ p ∈ t, entryWF p.2

instance (t : QTable) : Decidable (tableWF t) := by
  unfold tableWF; infer_instance

/-- The table invariant of the spec: every present state has exactly the
four actions defined. -/
def wellFormed (ag : QLearningAgent) : Prop := tableWF ag.qTable

instance (ag : QLearningAgent) : Decidable (wellFormed ag) := by
  unfold wellFormed; infer_instance

/-- The spec's greedy rule, written from its words: the action of maximum
stored value, ties broken by the first-declared order up, right, down,
left. -/
def specGreedyAction (e : QTableEntry) : String :=
  if entryGet e "right" > entryGet e "up" ∨ entryGet e "down" > entryGet e "up" ∨
      entryGet e "left" > entryGet e "up" then
    if entryGet e "down" > entryGet e "right" ∨ entryGet e "left" > entryGet e "right" then
      if entryGet e "left" > entryGet e "down" then "left" else "down"
    else "right"
  else "up"

/-- An operation touching the value table: an action choice at a position
(with its random draws) or a Q-value update. -/
inductive AgentOp where
  | choose (x y : Int) (rng : Nat → Rat) (i : Nat)
  | update (s : String) (a : String) (r : Rat) (s2 : String)

/-- Apply one operation to the agent. -/
def applyOp (ag : QLearningAgent) : AgentOp → QLearningAgent
  | .choose x y rng i => (chooseAction ag x y rng i).2.1
  | .update s a r s2 => updateQValue ag s a r s2

/-- Update operations carry one of the four declared actions (as every
update issued by runEpisode does). -/
def opWF : AgentOp → Prop
  | .choose _ _ _ _ => True
  | .update _ a _ _ => a ∈ actions

/-- Apply a sequence of operations. -/
def applyOps (ag : QLearningAgent) (ops : List AgentOp) : QLearningAgent :=
  ops.foldl applyOp ag

/-- A start-to-goal connection by OPEN cells: the claim's "path of OPEN
cells with 4-directional adjacency". -/
inductive Reachable (size : Nat) (m : List (List Nat)) : Int × Int → Int × Int → Prop
  | refl (p : Int × Int) (hv : isValidPosition size p.1 p.2 = true)
      (hopen : getCell m p.1 p.2 = 0) : Reachable size m p p
  | step {p q : Int × Int} (r : Int × Int) (hpq : Reachable size m p q)
      (d : Int × Int) (hd : d ∈ directions) (hr : r = (q.1 + d.1, q.2 + d.2))
      (hv : isValidPosition size r.1 r.2 = true)
      (hopen : getCell m r.1 r.2 = 0) : Reachable size m p r

/-- The grid is a size x size matrix. -/
def gridDims (size : Nat) (m : List (List Nat)) : Prop :=
  m.length = size ∧ ∀ row ∈ m, row.length = size

/-- An agent whose table stores only negative values: four self-loop wall
penalties with learning rate 1 and discount 1 drive all four Q-values of the
single visited state to -10. -/
def allNegAgent : QLearningAgent :=
  updateQValue
    (updateQValue
      (updateQValue
        (updateQValue (mkQLearningAgent 3 1 1 0) "0,0" "up" (-10) "0,0")
        "0,0" "right" (-10) "0,0")
      "0,0" "down" (-10) "0,0")
    "0,0" "left" (-10) "0,0"

/-! ## Table and entry lemmas -/

lemma entryGet_entrySet_self (e : QTableEntry) (a : String) (v : Rat) :
    entryGet (entrySet e a v) a = v := by
  induction e with
  | nil => simp [entrySet, entryGet]
  | cons p t ih =>
    by_cases h : p.1 = a <;> simp [entrySet, entryGet, h, ih]

lemma entryGet_entrySet_ne (e : QTableEntry) (a b : String) (v : Rat) (h : b ≠ a) :
    entryGet (entrySet e a v) b = entryGet e b := by
  induction e with
  | nil => simp [entrySet, entryGet, Ne.symm h]
  | cons p t ih =>
    by_cases hp : p.1 = a
    · simp [entrySet, entryGet, hp, Ne.symm h]
    · by_cases hb : p.1 = b <;> simp [entrySet, entryGet, hp, hb, ih, h, Ne.symm h]

lemma keys_entrySet_mem (e : QTableEntry) (a : String) (v : Rat)
    (h : a ∈ e.map Prod.fst) : (entrySet e a v).map Prod.fst = e.map Prod.fst := by
  induction e with
  | nil => simp at h
  | cons p t ih =>
    by_cases hp : p.1 = a
    · simp [entrySet, hp]
    · simp only [List.map_cons, List.mem_cons] at h
      rcases h with h | h

      · exact absurd h.symm hp
      · simp [entrySet, hp, ih h]

lemma tableGet?_tableSet_self (t : QTable) (s : String) (e : QTableEntry) :
    tableGet? (tableSet t s e) s = some e := by
  induction t with
  | nil => simp [tableSet, tableGet?]
  | cons p l ih =>
    by_cases h : p.1 = s <;> simp [tableSet, tableGet?, h, ih]

lemma tableGet?_tableSet_ne (t : QTable) (s k : String) (e : QTableEntry) (h : k ≠ s) :
    tableGet? (tableSet t s e) k = tableGet? t k := by
  induction t with
  | nil => simp [tableSet, tableGet?, Ne.symm h]
  | cons p l ih =>
    by_cases hp : p.1 = s
    · simp [tableSet, tableGet?, hp, Ne.symm h]
    · by_cases hk : p.1 = k <;> simp [tableSet, tableGet?, hp, hk, ih, h, Ne.symm h]

lemma mem_tableSet (t : QTable) (s : String) (e : QTableEntry) :
    ∀ p ∈ tableSet t s e, p ∈ t ∨ p = (s, e) := by
  induction t with
  | nil => simp [tableSet]
  | cons q l ih =>
    intro p hp
    by_cases h : q.1 = s
    · simp only [tableSet, if_pos h, List.mem_cons] at hp
      rcases hp with hp | hp
      · exact Or.inr hp
      · exact Or.inl (List.mem_cons_of_mem _ hp)
    · simp only [tableSet, if_neg h, List.mem_cons] at hp
      rcases hp with hp | hp
      · exact Or.inl (by simp [hp])
      · rcases ih p hp with h2 | h2
        · exact Or.inl (List.mem_cons_of_mem _ h2)
        · exact Or.inr h2

lemma tableGet?_mem (t : QTable) (k : String) (e : QTableEntry)
    (h : tableGet? t k = some e) : (k, e) ∈ t := by
  induction t with
  | nil => simp [tableGet?] at h
  | cons p l ih =>
    by_cases hp : p.1 = k
    · simp only [tableGet?, if_pos hp, Option.some.injEq] at h
      exact List.mem_cons.mpr (Or.inl (by rw [← hp, ← h]))
    · simp only [tableGet?, if_neg hp] at h
      exact List.mem_cons_of_mem _ (ih h)

lemma freshEntry_eq :
    freshEntry = [("up", 0), ("right", 0), ("down", 0), ("left", 0)] := by
  decide

lemma tableGet?_initQValues_present (t : QTable) (s : String) (e : QTableEntry)
    (h : tableGet? t s = some e) : initQValues t s = t := by
  simp [initQValues, tableHas, h]

lemma tableGet?_initQValues_absent (t : QTable) (s : String)
    (h : tableGet? t s = none) : initQValues t s = tableSet t s freshEntry := by
  simp [initQValues, tableHas, h]

lemma tableGet?_initQValues_self (t : QTable) (s : String) :
    tableGet? (initQValues t s) s = some ((tableGet? t s).getD freshEntry) := by
  rcases h : tableGet? t s with _ | e
  · rw [tableGet?_initQValues_absent t s h, tableGet?_tableSet_self]
    rfl
  · rw [tableGet?_initQValues_present t s e h, h]
    rfl

lemma tableGet?_initQValues_ne (t : QTable) (s k : String) (h : k ≠ s) :
    tableGet? (initQValues t s) k = tableGet? t k := by
  unfold initQValues
  split
  · rfl
  · exact tableGet?_tableSet_ne t s k freshEntry h

lemma initQValues_preserves (t : QTable) (s k : String) (e : QTableEntry)
    (h : tableGet? t k = some e) : tableGet? (initQValues t s) k = some e := by
  by_cases hk : k = s
  · subst hk
    rw [tableGet?_initQValues_present t k e h]
    exact h
  · rw [tableGet?_initQValues_ne t s k hk]
    exact h

/-! ## Fold-maximum lemmas -/

lemma le_foldl_max (l : List Rat) (a : Rat) : a ≤ l.foldl max a := by
  induction l generalizing a with
  | nil => simp [List.foldl]
  | cons b t ih => exact le_trans (le_max_left a b) (ih (max a b))

lemma mem_le_foldl_max (l : List Rat) (a v : Rat) (hv : v ∈ l) : v ≤ l.foldl max a := by
  induction l generalizing a with
  | nil => simp at hv
  | cons b t ih =>
    rcases List.mem_cons.mp hv with h | h
    · subst h
      exact le_trans (le_max_right a v) (le_foldl_max t (max a v))
    · exact ih (max a b) h

lemma foldl_max_choice (l : List Rat) (a : Rat) :
    l.foldl max a = a ∨ l.foldl max a ∈ l := by
  induction l generalizing a with
  | nil => exact Or.inl rfl
  | cons b t ih =>
    rcases ih (max a b) with h | h
    · rcases max_choice a b with h2 | h2
      · exact Or.inl (by rw [List.foldl_cons, h, h2])
      · exact Or.inr (by rw [List.foldl_cons, h, h2]; exact List.mem_cons_self b t)
    · exact Or.inr (List.mem_cons_of_mem b h)

lemma listMax_ge (l : List Rat) (v : Rat) (hv : v ∈ l) : v ≤ listMax l := by
  cases l with
  | nil => simp at hv
  | cons b t =>
    rcases List.mem_cons.mp hv with h | h
    · subst h
      exact le_foldl_max t v
    · exact mem_le_foldl_max t b v h

lemma listMax_mem (l : List Rat) (h : l ≠ []) : listMax l ∈ l := by
  cases l with
  | nil => exact absurd rfl h
  | cons b t =>
    rcases foldl_max_choice t b with h2 | h2
    · exact List.mem_cons.mpr (Or.inl h2)
    · exact List.mem_cons_of_mem b h2

/-! ## getMaxQValue lemmas (claim C9) -/

lemma le_maxStep (acc : Rat) (p : String × QTableEntry) : acc ≤ maxStep acc p := by
  unfold maxStep
  split
  · exact le_of_lt (by assumption)
  · exact le_refl acc

lemma listMax_le_maxStep (acc : Rat) (p : String × QTableEntry) :
    listMax (entryValues p.2) ≤ maxStep acc p := by
  unfold maxStep
  split
  · exact le_refl _
  · exact not_lt.mp (by assumption)

lemma acc_le_maxFold (l : QTable) (acc : Rat) : acc ≤ l.foldl maxStep acc := by
  induction l generalizing acc with
  | nil => exact le_refl acc
  | cons r t ih => exact le_trans (le_maxStep acc r) (ih (maxStep acc r))

lemma maxFold_mem_le (l : QTable) (p : String × QTableEntry)
    (q : String × Rat) (hq : q ∈ p.2) :
    ∀ acc : Rat, p ∈ l → q.2 ≤ l.foldl maxStep acc := by
  induction l with
  | nil => intro acc hp; simp at hp
  | cons r t ih =>
    intro acc hp
    rcases List.mem_cons.mp hp with h | h
    · have h1 : q.2 ≤ listMax (entryValues p.2) :=
        listMax_ge _ _ (List.mem_map.mpr ⟨q, hq, rfl⟩)
      rw [List.foldl_cons]
      refine le_trans (le_trans h1 ?_) (acc_le_maxFold t _)
      rw [h]
      exact listMax_le_maxStep acc r
    · exact ih (maxStep acc r) h

lemma maxFold_choice (l : QTable) :
    ∀ acc : Rat, l.foldl maxStep acc = acc ∨
      ∃ p ∈ l, l.foldl maxStep acc = listMax (entryValues p.2) := by
  induction l with
  | nil => intro acc; exact Or.inl rfl
  | cons r t ih =>
    intro acc
    rcases ih (maxStep acc r) with h | h
    · rw [List.foldl_cons, h]
      unfold maxStep
      split
      · exact Or.inr ⟨r, List.mem_cons_self r t, rfl⟩
      · exact Or.inl rfl
    · obtain ⟨p, hp, he⟩ := h
      exact Or.inr ⟨p, List.mem_cons_of_mem r hp, by rw [List.foldl_cons, he]⟩

/-- C9 (amended): getMaxQValue is the maximum of 0 and all stored
action-values: it is nonnegative, bounds every stored value from above, and
is either 0 or itself a stored value. In particular it equals the true
maximum of the stored values whenever the table is empty or some stored
value is nonnegative, but it returns 0 (not the true maximum) when every
stored value is negative. -/
theorem getMaxQValue_clamped (ag : QLearningAgent) :
    0 ≤ getMaxQValue ag ∧
    (∀ p ∈ ag.qTable, ∀ q ∈ p.2, q.2 ≤ getMaxQValue ag) ∧
    (getMaxQValue ag = 0 ∨ ∃ p ∈ ag.qTable, ∃ q ∈ p.2, q.2 = getMaxQValue ag) := by
  refine ⟨acc_le_maxFold ag.qTable 0, ?_, ?_⟩
  · intro p hp q hq
    exact maxFold_mem_le ag.qTable p q hq 0 hp
  · rcases maxFold_choice ag.qTable 0 with h | h
    · exact Or.inl h
    · obtain ⟨p, hp, he⟩ := h
      show getMaxQValue ag = 0 ∨ _
      rcases hv : p.2 with _ | ⟨q0, qs⟩
      · refine Or.inl ?_
        unfold getMaxQValue
        rw [he, hv]
        rfl
      · have hne : entryValues p.2 ≠ [] := by
          rw [hv]
          simp [entryValues]
        have hm := listMax_mem (entryValues p.2) hne
        obtain ⟨q, hq, hqe⟩ := List.mem_map.mp hm
        refine Or.inr ⟨p, hp, q, hq, ?_⟩
        unfold getMaxQValue
        rw [he, hqe]

/-- C9 counterexample: an agent whose stored Q-values are all -10 (reachable
by four self-loop updates); getMaxQValue returns 0, not the maximum stored
action-value -10. -/
theorem getMaxQValue_negative_table_counterexample :
    getMaxQValue allNegAgent = 0 ∧
    tableGet? allNegAgent.qTable "0,0" =
      some [("up", -10), ("right", -10), ("down", -10), ("left", -10)] ∧
    ¬((-10 : Rat) = 0) := by
  set_option maxRecDepth 4000 in
  refine ⟨by decide, by decide, by decide⟩

/-! ## Constructor behavior (claim C5) -/

/-- C5 counterexample: constructing with out-of-range parameters (size 1 < 2,
density 2 outside the unit interval, rates 2, 2 and -1 outside their valid
ranges) succeeds and produces a degenerate single-cell maze and an agent
storing the rates verbatim; no validation failure occurs. -/
theorem constructors_accept_invalid_counterexample :
    (mkMazeGenerator 1 2 (fun _ => 0)).maze = [[0]] ∧
    (mkMazeGenerator 1 2 (fun _ => 0)).size = 1 ∧
    (mkQLearningAgent 5 2 2 (-1)).learningRate = 2 ∧
    (mkQLearningAgent 5 2 2 (-1)).discountFactor = 2 ∧
    (mkQLearningAgent 5 2 2 (-1)).explorationRate = -1 := by
  refine ⟨by decide, rfl, rfl, rfl, rfl⟩

/-- C5 (amended): neither constructor validates or clamps. The agent
constructor stores any rates verbatim with an empty table; the maze
constructor accepts size 1 < 2 with any density and any random source and
returns the degenerate single-cell maze. -/
theorem constructors_no_validation :
    (∀ (size : Nat) (lr df er : Rat),
      (mkQLearningAgent size lr df er).learningRate = lr ∧
      (mkQLearningAgent size lr df er).discountFactor = df ∧
      (mkQLearningAgent size lr df er).explorationRate = er ∧
      (mkQLearningAgent size lr df er).qTable = []) ∧
    (∀ (d : Rat) (rng : Nat → Rat),
      (mkMazeGenerator 1 d rng).maze = [[0]] ∧
      (mkMazeGenerator 1 d rng).wallDensity = d) := by
  constructor
  · intro size lr df er
    exact ⟨rfl, rfl, rfl, rfl⟩
  · intro d rng
    exact ⟨rfl, rfl⟩

/-! ## Reward and wall behavior (claim C3) -/

/-- C3: the reward of an attempted transition is -10 when the candidate is
invalid (out of bounds or a wall), 100 when it is the goal, -1 otherwise; on
an invalid candidate the step leaves the position unchanged, still adds the
-10 penalty, and issues the Q-update as a self-loop on the unchanged state;
hence a single-step episode whose first move hits a wall has
totalReward = -10 and ends where it started. -/
theorem calculateReward_spec :
    (∀ (ag : QLearningAgent) (x y nx ny : Int) (maze : List (List Nat)) (gx gy : Int),
      calculateReward ag x y nx ny maze gx gy =
        if isValidMove ag.mazeSize nx ny maze = false then -10
        else if nx = gx ∧ ny = gy then 100 else -1) ∧
    (∀ (maze : List (List Nat)) (goal : Int × Int) (rng : Nat → Rat) (s : StepState),
      isValidMove (chooseAction s.agent s.x s.y rng s.i).2.1.mazeSize
          (getNextPosition s.x s.y (chooseAction s.agent s.x s.y rng s.i).1).1
          (getNextPosition s.x s.y (chooseAction s.agent s.x s.y rng s.i).1).2 maze = false →
      (stepOnce maze goal rng s).x = s.x ∧ (stepOnce maze goal rng s).y = s.y ∧
      (stepOnce maze goal rng s).totalReward = s.totalReward + (-10) ∧
      (stepOnce maze goal rng s).agent =
        updateQValue (chooseAction s.agent s.x s.y rng s.i).2.1
          (getStateKey s.x s.y) (chooseAction s.agent s.x s.y rng s.i).1 (-10)
          (getStateKey s.x s.y)) ∧
    (∀ (ag : QLearningAgent) (maze : List (List Nat)) (startP goalP : Int × Int)
        (rng : Nat → Rat) (i : Nat),
      isValidMove (chooseAction ag startP.1 startP.2 rng i).2.1.mazeSize
          (getNextPosition startP.1 startP.2 (chooseAction ag startP.1 startP.2 rng i).1).1
          (getNextPosition startP.1 startP.2 (chooseAction ag startP.1 startP.2 rng i).1).2
          maze = false →
      (runEpisode ag maze startP goalP 1 rng i).1.totalReward = -10 ∧
      (runEpisode ag maze startP goalP 1 rng i).1.finalPosition = (startP.1, startP.2)) := by
  have hstep : ∀ (maze : List (List Nat)) (goal : Int × Int) (rng : Nat → Rat) (s : StepState),
      isValidMove (chooseAction s.agent s.x s.y rng s.i).2.1.mazeSize
          (getNextPosition s.x s.y (chooseAction s.agent s.x s.y rng s.i).1).1
          (getNextPosition s.x s.y (chooseAction s.agent s.x s.y rng s.i).1).2 maze = false →
      (stepOnce maze goal rng s).x = s.x ∧ (stepOnce maze goal rng s).y = s.y ∧
      (stepOnce maze goal rng s).totalReward = s.totalReward + (-10) ∧
      (stepOnce maze goal rng s).agent =
        updateQValue (chooseAction s.agent s.x s.y rng s.i).2.1
          (getStateKey s.x s.y) (chooseAction s.agent s.x s.y rng s.i).1 (-10)
          (getStateKey s.x s.y) := by
    intro maze goal rng s h
    unfold stepOnce calculateReward
    simp [h]
  refine ⟨fun ag x y nx ny maze gx gy => rfl, hstep, ?_⟩
  intro ag maze startP goalP rng i h
  obtain ⟨hx, hy, hr, -⟩ :=
    hstep maze goalP rng ⟨startP.1, startP.2, 0, [(startP.1, startP.2)], ag, i⟩ h
  have hrw : runEpisode ag maze startP goalP 1 rng i =
      (if (stepOnce maze goalP rng ⟨startP.1, startP.2, 0, [(startP.1, startP.2)], ag, i⟩).x
            = goalP.1 ∧
          (stepOnce maze goalP rng ⟨startP.1, startP.2, 0, [(startP.1, startP.2)], ag, i⟩).y
            = goalP.2 then
        ({ success := true, steps := 1
           totalReward := (stepOnce maze goalP rng
             ⟨startP.1, startP.2, 0, [(startP.1, startP.2)], ag, i⟩).totalReward
           finalPosition := ((stepOnce maze goalP rng
             ⟨startP.1, startP.2, 0, [(startP.1, startP.2)], ag, i⟩).x,
             (stepOnce maze goalP rng
               ⟨startP.1, startP.2, 0, [(startP.1, startP.2)], ag, i⟩).y)
           path := (stepOnce maze goalP rng
             ⟨startP.1, startP.2, 0, [(startP.1, startP.2)], ag, i⟩).path },
         (stepOnce maze goalP rng ⟨startP.1, startP.2, 0, [(startP.1, startP.2)], ag, i⟩).agent)
      else
        ({ success := false, steps := 1
           totalReward := (stepOnce maze goalP rng
             ⟨startP.1, startP.2, 0, [(startP.1, startP.2)], ag, i⟩).totalReward
           finalPosition := ((stepOnce maze goalP rng
             ⟨startP.1, startP.2, 0, [(startP.1, startP.2)], ag, i⟩).x,
             (stepOnce maze goalP rng
               ⟨startP.1, startP.2, 0, [(startP.1, startP.2)], ag, i⟩).y)
           path := (stepOnce maze goalP rng
             ⟨startP.1, startP.2, 0, [(startP.1, startP.2)], ag, i⟩).path },
         (stepOnce maze goalP rng
           ⟨startP.1, startP.2, 0, [(startP.1, startP.2)], ag, i⟩).agent)) := rfl
  rw [hrw]
  split
  · refine ⟨?_, ?_⟩
    · show (stepOnce maze goalP rng _).totalReward = -10
      rw [hr]
      norm_num
    · show ((stepOnce maze goalP rng _).x, (stepOnce maze goalP rng _).y) = _
      rw [hx, hy]
  · refine ⟨?_, ?_⟩
    · show (stepOnce maze goalP rng _).totalReward = -10
      rw [hr]
      norm_num
    · show ((stepOnce maze goalP rng _).x, (stepOnce maze goalP rng _).y) = _
      rw [hx, hy]

/-- Witness for C3: in the 2x2 maze with walls at (1,0) and (0,1), the greedy
first move from (0,0) is the invalid "up"; the one-step episode collects
exactly the -10 penalty and ends at the start. -/
theorem calculateReward_spec_witness :
    (runEpisode (mkQLearningAgent 2 1 1 0) [[0, 1], [1, 0]] (0, 0) (1, 1) 1
      (fun _ => 0) 0).1.totalReward = -10 ∧
    (runEpisode (mkQLearningAgent 2 1 1 0) [[0, 1], [1, 0]] (0, 0) (1, 1) 1
      (fun _ => 0) 0).1.finalPosition = (0, 0) :=
  calculateReward_spec.2.2 (mkQLearningAgent 2 1 1 0) [[0, 1], [1, 0]] (0, 0) (1, 1)
    (fun _ => 0) 0 (by decide)

/-! ## Greedy selection (claim C8) -/

lemma greedyAction_eq_specGreedy (e : QTableEntry) :
    greedyAction e = specGreedyAction e := by
  by_cases h1 : entryGet e "up" < entryGet e "right" <;>
    by_cases h2 : entryGet e "up" < entryGet e "down" <;>
    by_cases h3 : entryGet e "right" < entryGet e "down" <;>
    by_cases h4 : entryGet e "up" < entryGet e "left" <;>
    by_cases h5 : entryGet e "right" < entryGet e "left" <;>
    by_cases h6 : entryGet e "down" < entryGet e "left" <;>
    simp [greedyAction, specGreedyAction, actions, h1, h2, h3, h4, h5, h6] <;>
    linarith

lemma specGreedy_mem (e : QTableEntry) : specGreedyAction e ∈ actions := by
  unfold specGreedyAction
  split_ifs <;> simp [actions]

lemma specGreedy_le (e : QTableEntry) :
    ∀ b ∈ actions, entryGet e b ≤ entryGet e (specGreedyAction e) := by
  intro b hb
  simp only [actions, List.mem_cons, List.not_mem_nil, or_false] at hb
  unfold specGreedyAction
  split_ifs with h1 h2 h3
  · rcases hb with rfl | rfl | rfl | rfl
    · rcases h1 with h | h | h
      · rcases h2 with g | g <;> linarith
      · linarith
      · linarith
    · rcases h2 with g | g <;> linarith
    · linarith
    · linarith
  · push_neg at h3
    rcases hb with rfl | rfl | rfl | rfl
    · rcases h1 with h | h | h
      · rcases h2 with g | g <;> linarith
      · linarith
      · linarith
    · rcases h2 with g | g <;> linarith
    · linarith
    · linarith
  · push_neg at h2
    rcases hb with rfl | rfl | rfl | rfl
    · rcases h1 with h | h | h <;> linarith [h2.1, h2.2]
    · linarith
    · linarith [h2.1]
    · linarith [h2.2]
  · push_neg at h1
    rcases hb with rfl | rfl | rfl | rfl
    · linarith
    · linarith [h1.1]
    · linarith [h1.2.1]
    · linarith [h1.2.2]

/-- C8: with explorationRate 0 (and a nonnegative draw, as Math.random
guarantees), chooseAction takes the exploitation branch and returns the
action of maximum stored value for the state's (lazily initialized) entry,
ties broken deterministically by the first-declared order up, right, down,
left: the result equals the spec's first-argmax rule, lies in the action
list, and its value bounds every action's value. -/
theorem chooseAction_greedy_tiebreak :
    ∀ (ag : QLearningAgent) (x y : Int) (rng : Nat → Rat) (i : Nat) (e : QTableEntry),
      ag.explorationRate = 0 → 0 ≤ rng i →
      tableGet? (initQValues ag.qTable (getStateKey x y)) (getStateKey x y) = some e →
      (chooseAction ag x y rng i).1 = specGreedyAction e ∧
      (chooseAction ag x y rng i).1 ∈ actions ∧
      (∀ b ∈ actions, entryGet e b ≤ entryGet e (chooseAction ag x y rng i).1) := by
  intro ag x y rng i e heps hnn hget
  have hcond : ¬(rng i < ag.explorationRate) := by
    rw [heps]
    exact not_lt.mpr hnn
  have hres : (chooseAction ag x y rng i).1 = greedyAction e := by
    unfold chooseAction
    simp only [hget, if_neg hcond, Option.getD_some]
  rw [hres, greedyAction_eq_specGreedy]
  exact ⟨rfl, specGreedy_mem e, specGreedy_le e⟩

/-- Witness for C8: a fresh agent with explorationRate 0 at position (0,0)
chooses the first tied action "up" of the all-zero entry. -/
theorem chooseAction_greedy_tiebreak_witness :
    (chooseAction (mkQLearningAgent 2 1 1 0) 0 0 (fun _ => 0) 0).1 =
      specGreedyAction freshEntry ∧
    (chooseAction (mkQLearningAgent 2 1 1 0) 0 0 (fun _ => 0) 0).1 ∈ actions ∧
    (∀ b ∈ actions, entryGet freshEntry b ≤
      entryGet freshEntry (chooseAction (mkQLearningAgent 2 1 1 0) 0 0 (fun _ => 0) 0).1) :=
  chooseAction_greedy_tiebreak (mkQLearningAgent 2 1 1 0) 0 0 (fun _ => 0) 0 freshEntry
    rfl (by decide) (by decide)

/-! ## The Q-learning update (claim C4) -/

lemma entryWF_canon (e : QTableEntry) (h : entryWF e) :
    ∃ a b c d : Rat, e = [("up", a), ("right", b), ("down", c), ("left", d)] := by
  unfold entryWF actions at h
  rcases e with _ | ⟨⟨k1, v1⟩, _ | ⟨⟨k2, v2⟩, _ | ⟨⟨k3, v3⟩, _ | ⟨⟨k4, v4⟩, _ | ⟨p5, rest⟩⟩⟩⟩⟩ <;>
    simp only [List.map_cons, List.map_nil, List.cons.injEq, List.cons_ne_nil,
      List.nil_eq, and_false, false_and, reduceCtorEq] at h
  obtain ⟨rfl, rfl, rfl, rfl, -⟩ := h
  exact ⟨v1, v2, v3, v4, rfl⟩

lemma entryGet_freshEntry (a : String) : entryGet freshEntry a = 0 := by
  rw [freshEntry_eq]
  simp only [entryGet]
  split_ifs <;> rfl

lemma entryGet_getD_fresh (o : Option QTableEntry) (a : String) :
    entryGet (o.getD freshEntry) a = entryGet (o.getD []) a := by
  cases o with
  | none => simpa [Option.getD] using entryGet_freshEntry a
  | some e => rfl

lemma chooseAction_preserves (ag : QLearningAgent) (x y : Int) (rng : Nat → Rat) (i : Nat)
    (k : String) (e : QTableEntry) (h : tableGet? ag.qTable k = some e) :
    tableGet? (chooseAction ag x y rng i).2.1.qTable k = some e := by
  unfold chooseAction
  dsimp only
  split <;> exact initQValues_preserves _ _ _ _ h

lemma tableGet?_after_two_inits (t0 : QTable) (s s2 k : String) :
    tableGet? (initQValues (initQValues t0 s) s2) k =
      if k = s ∨ k = s2 then some ((tableGet? t0 k).getD freshEntry)
      else tableGet? t0 k := by
  by_cases hk2 : k = s2
  · subst hk2
    rw [tableGet?_initQValues_self]
    by_cases hks : k = s
    · subst hks
      rw [tableGet?_initQValues_self]
      simp [Option.getD]
    · rw [tableGet?_initQValues_ne t0 s k hks]
      simp
  · rw [tableGet?_initQValues_ne _ s2 k hk2]
    by_cases hks : k = s
    · subst hks
      rw [tableGet?_initQValues_self]
      simp
    · rw [tableGet?_initQValues_ne t0 s k hks]
      simp [hks, hk2]

lemma listMax_values_eq (ag : QLearningAgent) (s2 : String) (hwf : wellFormed ag) :
    listMax (entryValues ((tableGet? ag.qTable s2).getD freshEntry)) =
      listMax (actions.map (fun b => qVal ag s2 b)) := by
  cases h2 : tableGet? ag.qTable s2 with
  | none =>
    simp only [Option.getD, freshEntry_eq]
    simp [qVal, h2, entryGet, actions, entryValues]
  | some e2 =>
    obtain ⟨a, b, c, d, rfl⟩ := entryWF_canon e2 (hwf _ (tableGet?_mem _ _ _ h2))
    simp [qVal, h2, entryValues, actions, entryGet]

/-- C4: updateQValue applies exactly the one-step tabular rule
Q(s,a) += alpha * (r + gamma * max Q(s2,-) - Q(s,a)); it changes no other
action of s and no other state (beyond lazily initializing s and s2, which
are both present afterwards); chooseAction never changes an existing entry,
updateParameters leaves the table untouched, and reset empties it. -/
theorem updateQValue_rule :
    (∀ (ag : QLearningAgent) (s a : String) (r : Rat) (s2 : String),
      a ∈ actions → wellFormed ag →
      (qVal (updateQValue ag s a r s2) s a =
        qVal ag s a + ag.learningRate *
          (r + ag.discountFactor * listMax (actions.map (fun b => qVal ag s2 b)) -
            qVal ag s a) ∧
      (∀ b : String, b ≠ a → qVal (updateQValue ag s a r s2) s b = qVal ag s b) ∧
      (∀ k : String, k ≠ s → ∀ b : String,
        qVal (updateQValue ag s a r s2) k b = qVal ag k b) ∧
      tableHas (updateQValue ag s a r s2).qTable s = true ∧
      tableHas (updateQValue ag s a r s2).qTable s2 = true)) ∧
    (∀ (ag : QLearningAgent) (x y : Int) (rng : Nat → Rat) (i : Nat) (k : String)
        (e : QTableEntry), tableGet? ag.qTable k = some e →
      tableGet? (chooseAction ag x y rng i).2.1.qTable k = some e) ∧
    (∀ (ag : QLearningAgent) (lr df er : Option Rat),
      (updateParameters ag lr df er).qTable = ag.qTable) ∧
    (∀ ag : QLearningAgent, (reset ag).qTable = []) := by
  refine ⟨?_, chooseAction_preserves, fun ag lr df er => rfl, fun ag => rfl⟩
  intro ag s a r s2 ha hwf
  have hts : tableGet? (initQValues (initQValues ag.qTable s) s2) s =
      some ((tableGet? ag.qTable s).getD freshEntry) := by
    rw [tableGet?_after_two_inits]
    simp
  have hts2 : tableGet? (initQValues (initQValues ag.qTable s) s2) s2 =
      some ((tableGet? ag.qTable s2).getD freshEntry) := by
    rw [tableGet?_after_two_inits]
    simp
  have hcur : entryGet ((tableGet? (initQValues (initQValues ag.qTable s) s2) s).getD []) a
      = qVal ag s a := by
    rw [hts, Option.getD_some, entryGet_getD_fresh]
    rfl
  have hcurb : ∀ b : String,
      entryGet ((tableGet? (initQValues (initQValues ag.qTable s) s2) s).getD []) b
        = qVal ag s b := by
    intro b
    rw [hts, Option.getD_some, entryGet_getD_fresh]
    rfl
  have hmax : listMax (entryValues
      ((tableGet? (initQValues (initQValues ag.qTable s) s2) s2).getD []))
      = listMax (actions.map (fun b => qVal ag s2 b)) := by
    rw [hts2, Option.getD_some]
    exact listMax_values_eq ag s2 hwf
  refine ⟨?_, ?_, ?_, ?_, ?_⟩
  · show entryGet ((tableGet? (tableSet _ s _) s).getD []) a = _
    rw [tableGet?_tableSet_self, Option.getD_some, entryGet_entrySet_self, hcur, hmax]
  · intro b hb
    show entryGet ((tableGet? (tableSet _ s _) s).getD []) b = _
    rw [tableGet?_tableSet_self, Option.getD_some, entryGet_entrySet_ne _ _ _ _ hb, hcurb]
  · intro k hk b
    show entryGet ((tableGet? (tableSet _ s _) k).getD []) b = _
    rw [tableGet?_tableSet_ne _ _ _ _ hk, tableGet?_after_two_inits]
    by_cases hk2 : k = s2
    · simp only [hk, hk2, or_true, if_true, false_or, Option.getD_some]
      rw [entryGet_getD_fresh]
      rfl
    · rw [if_neg (by simp [hk, hk2])]
      rfl
  · show (tableGet? (tableSet _ s _) s).isSome = true
    rw [tableGet?_tableSet_self]
    rfl
  · show (tableGet? (tableSet _ s _) s2).isSome = true
    by_cases hk2 : s2 = s
    · subst hk2
      rw [tableGet?_tableSet_self]
      rfl
    · rw [tableGet?_tableSet_ne _ _ _ _ hk2, tableGet?_after_two_inits]
      simp

/-- Witness for C4: a concrete update on a fresh agent with alpha = 1,
gamma = 1 stores exactly r + max(next) - 0 = 5. -/
theorem updateQValue_rule_witness :
    qVal (updateQValue (mkQLearningAgent 2 1 1 0) "0,0" "up" 5 "1,0") "0,0" "up" =
      qVal (mkQLearningAgent 2 1 1 0) "0,0" "up" + 1 *
        (5 + 1 * listMax (actions.map (fun b => qVal (mkQLearningAgent 2 1 1 0) "1,0" b)) -
          qVal (mkQLearningAgent 2 1 1 0) "0,0" "up") :=
  (updateQValue_rule.1 (mkQLearningAgent 2 1 1 0) "0,0" "up" 5 "1,0" (by decide)
    (by decide)).1

/-! ## Lazy-initialization completeness (claim C7) -/

lemma entryWF_freshEntry : entryWF freshEntry := by decide

lemma tableWF_tableSet (t : QTable) (s : String) (e : QTableEntry)
    (ht : tableWF t) (he : entryWF e) : tableWF (tableSet t s e) := by
  intro p hp
  rcases mem_tableSet t s e p hp with h | h
  · exact ht p h
  · rw [h]
    exact he

lemma tableWF_initQValues (t : QTable) (s : String) (ht : tableWF t) :
    tableWF (initQValues t s) := by
  unfold initQValues
  split
  · exact ht
  · exact tableWF_tableSet t s freshEntry ht entryWF_freshEntry

lemma entryWF_entrySet (e : QTableEntry) (a : String) (v : Rat)
    (he : entryWF e) (ha : a ∈ actions) : entryWF (entrySet e a v) := by
  unfold entryWF at he ⊢
  rw [keys_entrySet_mem e a v (by rw [he]; exact ha), he]

lemma wellFormed_updateQValue (ag : QLearningAgent) (s a : String) (r : Rat) (s2 : String)
    (ha : a ∈ actions) (hwf : wellFormed ag) : wellFormed (updateQValue ag s a r s2) := by
  have h2 : tableWF (initQValues (initQValues ag.qTable s) s2) :=
    tableWF_initQValues _ s2 (tableWF_initQValues _ s hwf)
  have hes : tableGet? (initQValues (initQValues ag.qTable s) s2) s =
      some ((tableGet? ag.qTable s).getD freshEntry) := by
    rw [tableGet?_after_two_inits]
    simp
  show tableWF (tableSet _ s _)
  refine tableWF_tableSet _ s _ h2 ?_
  rw [hes, Option.getD_some]
  exact entryWF_entrySet _ a _ (h2 _ (tableGet?_mem _ _ _ hes)) ha

lemma wellFormed_chooseAction (ag : QLearningAgent) (x y : Int) (rng : Nat → Rat) (i : Nat)
    (hwf : wellFormed ag) : wellFormed (chooseAction ag x y rng i).2.1 := by
  unfold chooseAction
  dsimp only
  split <;> exact tableWF_initQValues _ _ hwf

lemma getD_mem_of_default_mem (l : List String) (n : Nat) (d : String) (hd : d ∈ l) :
    l.getD n d ∈ l := by
  rcases h : l[n]? with _ | x
  · simpa [List.getD, h] using hd
  · have := List.getElem?_mem h
    simpa [List.getD, h] using this

lemma chooseAction_mem_actions (ag : QLearningAgent) (x y : Int) (rng : Nat → Rat)
    (i : Nat) : (chooseAction ag x y rng i).1 ∈ actions := by
  unfold chooseAction
  dsimp only
  split
  · exact getD_mem_of_default_mem actions _ "up" (by decide)
  · rw [greedyAction_eq_specGreedy]
    exact specGreedy_mem _

lemma wellFormed_stepOnce (maze : List (List Nat)) (goal : Int × Int) (rng : Nat → Rat)
    (s : StepState) (h : wellFormed s.agent) : wellFormed (stepOnce maze goal rng s).agent := by
  exact wellFormed_updateQValue _ _ _ _ _ (chooseAction_mem_actions s.agent s.x s.y rng s.i)
    (wellFormed_chooseAction s.agent s.x s.y rng s.i h)

lemma wellFormed_runLoop (maze : List (List Nat)) (goal : Int × Int) (rng : Nat → Rat) :
    ∀ (rem steps : Nat) (s : StepState), wellFormed s.agent →
      wellFormed (runLoop maze goal rng rem steps s).2 := by
  intro rem
  induction rem with
  | zero => intro steps s h; exact h
  | succ n ih =>
    intro steps s h
    rw [runLoop]
    split
    · exact wellFormed_stepOnce maze goal rng s h
    · exact ih (steps + 1) _ (wellFormed_stepOnce maze goal rng s h)

lemma wellFormed_applyOps : ∀ (ops : List AgentOp) (ag : QLearningAgent),
    wellFormed ag → (∀ op ∈ ops, opWF op) → wellFormed (applyOps ag ops) := by
  intro ops
  induction ops with
  | nil => intro ag h _; exact h
  | cons op rest ih =>
    intro ag h hwfops
    refine ih (applyOp ag op) ?_ (fun o ho => hwfops o (List.mem_cons_of_mem op ho))
    cases op with
    | choose x y rng i => exact wellFormed_chooseAction ag x y rng i h
    | update s a r s2 =>
      exact wellFormed_updateQValue ag s a r s2
        (hwfops _ (List.mem_cons_self _ _)) h

lemma foldl_add_length (l : QTable) : ∀ acc : Nat,
    l.foldl (fun tot p => tot + p.2.length) acc =
      acc + (l.map (fun p => p.2.length)).sum := by
  induction l with
  | nil => intro acc; simp
  | cons p t ih =>
    intro acc
    rw [List.foldl_cons, ih, List.map_cons, List.sum_cons]
    omega

lemma sum_map_four (l : QTable) (h : ∀ p ∈ l, p.2.length = 4) :
    (l.map (fun p => p.2.length)).sum = 4 * l.length := by
  induction l with
  | nil => simp
  | cons p t ih =>
    rw [List.map_cons, List.sum_cons, List.length_cons,
      ih (fun q hq => h q (List.mem_cons_of_mem p hq)), h p (List.mem_cons_self p t)]
    ring

/-- C7: starting from a freshly constructed agent, any sequence of
chooseAction and update operations (updates carrying one of the four
declared actions, as every update issued by runEpisode does) leaves every
present table entry with exactly the four actions up, right, down, left;
runEpisode preserves the same invariant; and under it the total stored
action-value count is exactly 4 times the number of explored states. -/
theorem qtable_lazy_init_complete :
    (∀ (n : Nat) (lr df er : Rat) (ops : List AgentOp), (∀ op ∈ ops, opWF op) →
      wellFormed (applyOps (mkQLearningAgent n lr df er) ops)) ∧
    (∀ (ag : QLearningAgent) (maze : List (List Nat)) (startP goalP : Int × Int)
        (maxSteps : Nat) (rng : Nat → Rat) (i : Nat), wellFormed ag →
      wellFormed (runEpisode ag maze startP goalP maxSteps rng i).2) ∧
    (∀ ag : QLearningAgent, wellFormed ag →
      getTotalQValues ag = 4 * getStatesExplored ag) := by
  refine ⟨?_, ?_, ?_⟩
  · intro n lr df er ops hops
    exact wellFormed_applyOps ops (mkQLearningAgent n lr df er)
      (fun p hp => absurd hp (List.not_mem_nil p)) hops
  · intro ag maze startP goalP maxSteps rng i hwf
    exact wellFormed_runLoop maze goalP rng maxSteps 0 _ hwf
  · intro ag hwf
    unfold getTotalQValues getStatesExplored
    rw [foldl_add_length, sum_map_four]
    · omega
    · intro p hp
      have := hwf p hp
      unfold entryWF at this
      have h4 : (p.2.map Prod.fst).length = 4 := by rw [this]; rfl
      simpa using h4

/-- Witness for C7: a choose followed by an update keeps every entry fully
populated, and on a populated table the stored-value count is 4 times the
state count. -/
theorem qtable_lazy_init_complete_witness :
    wellFormed (applyOps (mkQLearningAgent 3 1 1 0)
      [AgentOp.choose 0 0 (fun _ => 0) 0, AgentOp.update "0,0" "up" (-10) "0,0"]) ∧
    getTotalQValues allNegAgent = 4 * getStatesExplored allNegAgent :=
  ⟨qtable_lazy_init_complete.1 3 1 1 0
      [AgentOp.choose 0 0 (fun _ => 0) 0, AgentOp.update "0,0" "up" (-10) "0,0"]
      (by
        intro op hop
        rcases List.mem_cons.mp hop with rfl | hop
        · trivial
        · rcases List.mem_singleton.mp hop with rfl
          exact (by decide : ("up" : String) ∈ actions)),
    qtable_lazy_init_complete.2.2 allNegAgent (by decide)⟩

/-! ## Episode loop lemmas (claims C2 and C10) -/

lemma updateQValue_mazeSize (ag : QLearningAgent) (s a : String) (r : Rat) (s2 : String) :
    (updateQValue ag s a r s2).mazeSize = ag.mazeSize := rfl

lemma chooseAction_mazeSize (ag : QLearningAgent) (x y : Int) (rng : Nat → Rat) (i : Nat) :
    (chooseAction ag x y rng i).2.1.mazeSize = ag.mazeSize := by
  unfold chooseAction
  dsimp only
  split <;> rfl

lemma stepOnce_mazeSize (maze : List (List Nat)) (goal : Int × Int) (rng : Nat → Rat)
    (s : StepState) : (stepOnce maze goal rng s).agent.mazeSize = s.agent.mazeSize := by
  show (updateQValue _ _ _ _ _).mazeSize = _
  rw [updateQValue_mazeSize, chooseAction_mazeSize]

lemma stepOnce_path (maze : List (List Nat)) (goal : Int × Int) (rng : Nat → Rat)
    (s : StepState) : (stepOnce maze goal rng s).path =
      s.path ++ [((stepOnce maze goal rng s).x, (stepOnce maze goal rng s).y)] := rfl

lemma stepOnce_pos_valid (maze : List (List Nat)) (goal : Int × Int) (rng : Nat → Rat)
    (s : StepState) (ms : Nat) (hms : s.agent.mazeSize = ms)
    (h : isValidMove ms s.x s.y maze = true) :
    isValidMove ms (stepOnce maze goal rng s).x (stepOnce maze goal rng s).y maze = true := by
  unfold stepOnce
  dsimp only
  rw [chooseAction_mazeSize, hms]
  split
  · assumption
  · exact h

lemma runLoop_path_valid (maze : List (List Nat)) (goal : Int × Int) (rng : Nat → Rat)
    (ms : Nat) : ∀ (rem steps : Nat) (s : StepState),
    s.agent.mazeSize = ms →
    isValidMove ms s.x s.y maze = true →
    (∀ p ∈ s.path, isValidMove ms p.1 p.2 maze = true) →
    (∀ p ∈ (runLoop maze goal rng rem steps s).1.path,
      isValidMove ms p.1 p.2 maze = true) ∧
    isValidMove ms (runLoop maze goal rng rem steps s).1.finalPosition.1
      (runLoop maze goal rng rem steps s).1.finalPosition.2 maze = true := by
  intro rem
  induction rem with
  | zero => intro steps s _ hpos hpath; exact ⟨hpath, hpos⟩
  | succ n ih =>
    intro steps s hms hpos hpath
    have hms2 : (stepOnce maze goal rng s).agent.mazeSize = ms := by
      rw [stepOnce_mazeSize, hms]
    have hpos2 := stepOnce_pos_valid maze goal rng s ms hms hpos
    have hpath2 : ∀ p ∈ (stepOnce maze goal rng s).path,
        isValidMove ms p.1 p.2 maze = true := by
      intro p hp
      rw [stepOnce_path] at hp
      rcases List.mem_append.mp hp with hp | hp
      · exact hpath p hp
      · rcases List.mem_singleton.mp hp with rfl
        exact hpos2
    rw [runLoop]
    split
    · exact ⟨hpath2, hpos2⟩
    · exact ih (steps + 1) _ hms2 hpos2 hpath2

/-- C10: when the start position is a valid cell (in bounds and OPEN),
every position of the returned trajectory, and in particular the returned
final position, is in bounds and OPEN: the agent only advances to candidates
that isValidMove accepts. -/
theorem runEpisode_path_valid :
    ∀ (ag : QLearningAgent) (maze : List (List Nat)) (startP goalP : Int × Int)
      (maxSteps : Nat) (rng : Nat → Rat) (i : Nat),
    1 ≤ maxSteps →
    isValidMove ag.mazeSize startP.1 startP.2 maze = true →
    (∀ p ∈ (runEpisode ag maze startP goalP maxSteps rng i).1.path,
      isValidMove ag.mazeSize p.1 p.2 maze = true) ∧
    isValidMove ag.mazeSize
      (runEpisode ag maze startP goalP maxSteps rng i).1.finalPosition.1
      (runEpisode ag maze startP goalP maxSteps rng i).1.finalPosition.2 maze = true := by
  intro ag maze startP goalP maxSteps rng i _ hstart
  refine runLoop_path_valid maze goalP rng ag.mazeSize maxSteps 0 _ rfl hstart ?_
  intro p hp
  rcases List.mem_singleton.mp hp with rfl
  exact hstart

/-- Witness for C10: a two-step budget on the fully open 2x2 grid keeps the
whole trajectory inside the grid on open cells. -/
theorem runEpisode_path_valid_witness :
    (∀ p ∈ (runEpisode (mkQLearningAgent 2 1 1 0) [[0, 0], [0, 0]] (0, 0) (1, 1) 2
        (fun _ => 0) 0).1.path,
      isValidMove (mkQLearningAgent 2 1 1 0).mazeSize p.1 p.2 [[0, 0], [0, 0]] = true) ∧
    isValidMove (mkQLearningAgent 2 1 1 0).mazeSize
      (runEpisode (mkQLearningAgent 2 1 1 0) [[0, 0], [0, 0]] (0, 0) (1, 1) 2
        (fun _ => 0) 0).1.finalPosition.1
      (runEpisode (mkQLearningAgent 2 1 1 0) [[0, 0], [0, 0]] (0, 0) (1, 1) 2
        (fun _ => 0) 0).1.finalPosition.2 [[0, 0], [0, 0]] = true :=
  runEpisode_path_valid (mkQLearningAgent 2 1 1 0) [[0, 0], [0, 0]] (0, 0) (1, 1) 2
    (fun _ => 0) 0 (by decide) (by decide)

lemma runLoop_path_head (maze : List (List Nat)) (goal : Int × Int) (rng : Nat → Rat) :
    ∀ (rem steps : Nat) (s : StepState) (a : Int × Int) (l : List (Int × Int)),
    s.path = a :: l →
    ∃ l2, (runLoop maze goal rng rem steps s).1.path = a :: l2 := by
  intro rem
  induction rem with
  | zero => intro steps s a l h; exact ⟨l, h⟩
  | succ n ih =>
    intro steps s a l h
    have h2 : (stepOnce maze goal rng s).path =
        a :: (l ++ [((stepOnce maze goal rng s).x, (stepOnce maze goal rng s).y)]) := by
      rw [stepOnce_path, h]
      rfl
    rw [runLoop]
    split
    · exact ⟨_, h2⟩
    · exact ih (steps + 1) _ a _ h2

lemma runLoop_success_final (maze : List (List Nat)) (goal : Int × Int) (rng : Nat → Rat) :
    ∀ (rem steps : Nat) (s : StepState),
    (runLoop maze goal rng rem steps s).1.success = true →
    (runLoop maze goal rng rem steps s).1.finalPosition = (goal.1, goal.2) := by
  intro rem
  induction rem with
  | zero => intro steps s h; exact Bool.noConfusion h
  | succ n ih =>
    intro steps s h
    rw [runLoop] at h ⊢
    by_cases hgoal : (stepOnce maze goal rng s).x = goal.1 ∧
        (stepOnce maze goal rng s).y = goal.2
    · rw [if_pos hgoal]
      show ((stepOnce maze goal rng s).x, (stepOnce maze goal rng s).y) = _
      rw [hgoal.1, hgoal.2]
    · rw [if_neg hgoal] at h ⊢
      exact ih (steps + 1) _ h

lemma runLoop_fail_steps (maze : List (List Nat)) (goal : Int × Int) (rng : Nat → Rat) :
    ∀ (rem steps : Nat) (s : StepState),
    (runLoop maze goal rng rem steps s).1.success = false →
    (runLoop maze goal rng rem steps s).1.steps = steps + rem := by
  intro rem
  induction rem with
  | zero => intro steps s _; rfl
  | succ n ih =>
    intro steps s h
    rw [runLoop] at h ⊢
    by_cases hgoal : (stepOnce maze goal rng s).x = goal.1 ∧
        (stepOnce maze goal rng s).y = goal.2
    · rw [if_pos hgoal] at h
      exact Bool.noConfusion h
    · rw [if_neg hgoal] at h ⊢
      rw [ih (steps + 1) _ h]
      omega

/-- C2: runEpisode's loop performs, at every iteration, exactly the claimed
sequence (choose an action, form the candidate, compute the reward against
the candidate, update the Q-value keyed on the actual next state, advance
only when the candidate is valid, append the resulting position, then test
the goal and return success immediately when it is reached); the returned
path starts with the start position; success implies the final position is
the goal; and exhausting maxSteps without success returns success = false
with steps = maxSteps. -/
theorem runEpisode_contract :
    (∀ (ag : QLearningAgent) (maze : List (List Nat)) (startP goalP : Int × Int)
        (maxSteps : Nat) (rng : Nat → Rat) (i : Nat),
      (runEpisode ag maze startP goalP maxSteps rng i).1.path.head? =
        some (startP.1, startP.2) ∧
      ((runEpisode ag maze startP goalP maxSteps rng i).1.success = true →
        (runEpisode ag maze startP goalP maxSteps rng i).1.finalPosition =
          (goalP.1, goalP.2)) ∧
      ((runEpisode ag maze startP goalP maxSteps rng i).1.success = false →
        (runEpisode ag maze startP goalP maxSteps rng i).1.steps = maxSteps)) ∧
    (∀ (maze : List (List Nat)) (goal : Int × Int) (rng : Nat → Rat)
        (rem steps : Nat) (s : StepState),
      runLoop maze goal rng (rem + 1) steps s =
        (let c := chooseAction s.agent s.x s.y rng s.i
         let nextPos := getNextPosition s.x s.y c.1
         let reward := calculateReward c.2.1 s.x s.y nextPos.1 nextPos.2 maze goal.1 goal.2
         let valid := isValidMove c.2.1.mazeSize nextPos.1 nextPos.2 maze
         let ax := if valid then nextPos.1 else s.x
         let ay := if valid then nextPos.2 else s.y
         let s2 : StepState :=
           { x := ax, y := ay, totalReward := s.totalReward + reward
             path := s.path ++ [(ax, ay)]
             agent := updateQValue c.2.1 (getStateKey s.x s.y) c.1 reward
               (getStateKey ax ay)
             i := c.2.2 }
         if s2.x = goal.1 ∧ s2.y = goal.2 then
           ({ success := true, steps := steps + 1, totalReward := s2.totalReward
              finalPosition := (s2.x, s2.y), path := s2.path }, s2.agent)
         else runLoop maze goal rng rem (steps + 1) s2)) := by
  constructor
  · intro ag maze startP goalP maxSteps rng i
    have hfin := runLoop_success_final maze goalP rng maxSteps 0
      ⟨startP.1, startP.2, 0, [(startP.1, startP.2)], ag, i⟩
    have hfail := runLoop_fail_steps maze goalP rng maxSteps 0
      ⟨startP.1, startP.2, 0, [(startP.1, startP.2)], ag, i⟩
    refine ⟨?_, fun h => hfin h, fun h => (hfail h).trans (Nat.zero_add maxSteps)⟩
    obtain ⟨l2, hl2⟩ := runLoop_path_head maze goalP rng maxSteps 0
      ⟨startP.1, startP.2, 0, [(startP.1, startP.2)], ag, i⟩ (startP.1, startP.2) [] rfl
    rw [runEpisode, hl2]
    rfl
  · intro maze goal rng rem steps s
    rfl

/-- Witness for C2: on the open 2x2 grid the greedy agent reaches the goal
within 50 steps (success with final position (1,1)), and with the exits
walled off a 1-step run fails with steps = 1. -/
theorem runEpisode_contract_witness :
    (runEpisode (mkQLearningAgent 2 1 1 0) [[0, 0], [0, 0]] (0, 0) (1, 1) 50
      (fun _ => 0) 0).1.finalPosition = (1, 1) ∧
    (runEpisode (mkQLearningAgent 2 1 1 0) [[0, 1], [1, 0]] (0, 0) (1, 1) 1
      (fun _ => 0) 0).1.steps = 1 :=
  ⟨((runEpisode_contract.1 (mkQLearningAgent 2 1 1 0) [[0, 0], [0, 0]] (0, 0) (1, 1) 50
      (fun _ => 0) 0).2.1) (by decide),
   ((runEpisode_contract.1 (mkQLearningAgent 2 1 1 0) [[0, 1], [1, 0]] (0, 0) (1, 1) 1
      (fun _ => 0) 0).2.2) (by decide)⟩

/-! ## Grid read/write lemmas -/

lemma getD_set_self {α : Type} (l : List α) (i : Nat) (a d : α) (h : i < l.length) :
    (l.set i a).getD i d = a := by
  rw [List.getD_eq_getElem?_getD, List.getElem?_set_self h]
  rfl

lemma getD_set_ne {α : Type} (l : List α) (i j : Nat) (a d : α) (h : j ≠ i) :
    (l.set i a).getD j d = l.getD j d := by
  rw [List.getD_eq_getElem?_getD, List.getElem?_set_ne (Ne.symm h),
    ← List.getD_eq_getElem?_getD]

lemma getD_mem {α : Type} (l : List α) (i : Nat) (d : α) (h : i < l.length) :
    l.getD i d ∈ l := by
  rw [List.getD_eq_getElem?_getD, List.getElem?_eq_getElem h]
  exact List.getElem_mem h

lemma gridDims_set2d (size : Nat) (m : List (List Nat)) (x y : Int) (v : Nat)
    (h : gridDims size m) : gridDims size (set2d m x y v) := by
  unfold set2d
  split
  · by_cases hy : y.toNat < m.length
    · constructor
      · rw [List.length_set]
        exact h.1
      · intro row hrow
        rcases List.mem_or_eq_of_mem_set hrow with hr | hr
        · exact h.2 row hr
        · rw [hr, List.length_set]
          exact h.2 _ (getD_mem m y.toNat [] hy)
    · rw [List.set_eq_of_length_le (le_of_not_lt hy)]
      exact h
  · exact h

lemma getCell_set2d_self (size : Nat) (m : List (List Nat)) (x y : Int) (v : Nat)
    (hd : gridDims size m) (hx : 0 ≤ x) (hx2 : x < (size : Int))
    (hy : 0 ≤ y) (hy2 : y < (size : Int)) : getCell (set2d m x y v) x y = v := by
  have hyn : y.toNat < m.length := by
    rw [hd.1]
    omega
  have hrow : (m.getD y.toNat []).length = size := hd.2 _ (getD_mem m y.toNat [] hyn)
  have hxn : x.toNat < (m.getD y.toNat []).length := by
    rw [hrow]
    omega
  unfold set2d getCell
  rw [if_pos ⟨hx, hy⟩, if_pos ⟨hx, hy⟩, getD_set_self _ _ _ _ hyn,
    getD_set_self _ _ _ _ hxn]

lemma getCell_set2d_zero (m : List (List Nat)) (a b x y : Int)
    (h : getCell m x y = 0) : getCell (set2d m a b 0) x y = 0 := by
  unfold getCell at h ⊢
  by_cases hxy : 0 ≤ x ∧ 0 ≤ y
  · rw [if_pos hxy] at h ⊢
    unfold set2d
    split
    · by_cases hyb : y.toNat = b.toNat
      · rw [← hyb] at *
        by_cases hblen : y.toNat < m.length
        · rw [getD_set_self _ _ _ _ hblen]
          by_cases hxa : x.toNat = a.toNat
          · rw [← hxa] at *
            by_cases halen : x.toNat < (m.getD y.toNat []).length
            · rw [getD_set_self _ _ _ _ halen]
            · rw [List.set_eq_of_length_le (le_of_not_lt halen)]
              exact h
          · rw [getD_set_ne _ _ _ _ _ hxa]
            exact h
        · rw [List.set_eq_of_length_le (le_of_not_lt hblen)]
          exact h
      · rw [getD_set_ne _ _ _ _ _ hyb]
        exact h
    · exact h
  · rw [if_neg hxy] at h
    exact absurd h (by omega)

/-! ## Preservation through the generator passes -/

lemma fold_pres {α β : Type} (P : β → Prop) (l : List α) (step : β → α → β)
    (hstep : ∀ b a, P b → P (step b a)) : ∀ b, P b → P (l.foldl step b) := by
  induction l with
  | nil => intro b h; exact h
  | cons a t ih => intro b h; exact ih (step b a) (hstep b a h)

lemma carveBody_zero (size : Nat) (rng : Nat → Rat) (s : CarveState) (x y : Int)
    (h : getCell s.maze x y = 0) : getCell (carveBody size rng s).maze x y = 0 := by
  unfold carveBody
  dsimp only
  split
  · exact getCell_set2d_zero _ _ _ _ _ (getCell_set2d_zero _ _ _ _ _ h)
  · split <;> exact h

lemma carveBody_dims (size : Nat) (rng : Nat → Rat) (s : CarveState)
    (h : gridDims size s.maze) : gridDims size (carveBody size rng s).maze := by
  unfold carveBody
  dsimp only
  split
  · exact gridDims_set2d _ _ _ _ _ (gridDims_set2d _ _ _ _ _ h)
  · split <;> exact h

lemma carveLoop_zero (size : Nat) (rng : Nat → Rat) (x y : Int) :
    ∀ (fuel : Nat) (s : CarveState), getCell s.maze x y = 0 →
      getCell (carveLoop size rng fuel s).maze x y = 0 := by
  intro fuel
  induction fuel with
  | zero => intro s h; exact h
  | succ n ih =>
    intro s h
    rw [carveLoop]
    split
    · exact carveBody_zero size rng s x y h
    · exact ih _ (carveBody_zero size rng s x y h)

lemma carveLoop_dims (size : Nat) (rng : Nat → Rat) :
    ∀ (fuel : Nat) (s : CarveState), gridDims size s.maze →
      gridDims size (carveLoop size rng fuel s).maze := by
  intro fuel
  induction fuel with
  | zero => intro s h; exact h
  | succ n ih =>
    intro s h
    rw [carveLoop]
    split
    · exact carveBody_dims size rng s h
    · exact ih _ (carveBody_dims size rng s h)

lemma density_zero (size : Nat) (wd : Rat) (sp gp : Int × Int) (rng : Nat → Rat)
    (m : List (List Nat)) (i : Nat) (x y : Int) (h : getCell m x y = 0) :
    getCell (applyWallDensityModification size wd sp gp rng m i).1 x y = 0 := by
  unfold applyWallDensityModification
  refine fold_pres (fun (st : List (List Nat) × Nat) => getCell st.1 x y = 0) _ _ ?_ _ h
  intro b a hb
  refine fold_pres (fun (st : List (List Nat) × Nat) => getCell st.1 x y = 0) _ _ ?_ _ hb
  intro b2 a2 hb2
  dsimp only
  split_ifs <;> dsimp only <;> first | exact hb2 | exact getCell_set2d_zero _ _ _ _ _ hb2

lemma density_dims (size : Nat) (wd : Rat) (sp gp : Int × Int) (rng : Nat → Rat)
    (m : List (List Nat)) (i : Nat) (h : gridDims size m) :
    gridDims size (applyWallDensityModification size wd sp gp rng m i).1 := by
  unfold applyWallDensityModification
  refine fold_pres (fun (st : List (List Nat) × Nat) => gridDims size st.1) _ _ ?_ _ h
  intro b a hb
  refine fold_pres (fun (st : List (List Nat) × Nat) => gridDims size st.1) _ _ ?_ _ hb
  intro b2 a2 hb2
  dsimp only
  split_ifs <;> dsimp only <;> first | exact hb2 | exact gridDims_set2d _ _ _ _ _ hb2

lemma connectivity_zero (size : Nat) (rng : Nat → Rat) (m : List (List Nat)) (i : Nat)
    (x y : Int) (h : getCell m x y = 0) :
    getCell (ensureConnectivity size rng m i).1 x y = 0 := by
  unfold ensureConnectivity
  refine fold_pres (fun (st : List (List Nat) × Nat) => getCell st.1 x y = 0) _ _ ?_ _ h
  intro b a hb
  dsimp only
  split_ifs <;> dsimp only <;> first | exact hb | exact getCell_set2d_zero _ _ _ _ _ hb

lemma connectivity_dims (size : Nat) (rng : Nat → Rat) (m : List (List Nat)) (i : Nat)
    (h : gridDims size m) : gridDims size (ensureConnectivity size rng m i).1 := by
  unfold ensureConnectivity
  refine fold_pres (fun (st : List (List Nat) × Nat) => gridDims size st.1) _ _ ?_ _ h
  intro b a hb
  dsimp only
  split_ifs <;> dsimp only <;> first | exact hb | exact gridDims_set2d _ _ _ _ _ hb

lemma createPath_zero (m : List (List Nat)) (gp : Int × Int) (x y : Int)
    (h : getCell m x y = 0) : getCell (createPathToGoal m gp) x y = 0 := by
  unfold createPathToGoal
  refine getCell_set2d_zero _ _ _ _ _ ?_
  refine fold_pres (fun mm => getCell mm x y = 0) _ _ ?_ _ ?_
  · intro b a hb
    exact getCell_set2d_zero _ _ _ _ _ hb
  · refine fold_pres (fun mm => getCell mm x y = 0) _ _ ?_ _ h
    intro b a hb
    exact getCell_set2d_zero _ _ _ _ _ hb

lemma createPath_dims (size : Nat) (m : List (List Nat)) (gp : Int × Int)
    (h : gridDims size m) : gridDims size (createPathToGoal m gp) := by
  unfold createPathToGoal
  refine gridDims_set2d _ _ _ _ _ ?_
  refine fold_pres (gridDims size) _ _ ?_ _ ?_
  · intro b a hb
    exact gridDims_set2d _ _ _ _ _ hb
  · refine fold_pres (gridDims size) _ _ ?_ _ h
    intro b a hb
    exact gridDims_set2d _ _ _ _ _ hb

lemma replicate_dims (size : Nat) :
    gridDims size (List.replicate size (List.replicate size 1)) := by
  constructor
  · exact List.length_replicate size _
  · intro row hrow
    rw [List.eq_of_mem_replicate hrow]
    exact List.length_replicate size _

lemma preMaze_dims (size : Nat) (d : Rat) (rng : Nat → Rat) :
    gridDims size (preMaze size d rng) := by
  unfold preMaze
  dsimp only
  apply connectivity_dims
  apply gridDims_set2d
  apply gridDims_set2d
  apply density_dims
  apply carveLoop_dims
  show gridDims size (set2d (List.replicate size (List.replicate size 1)) 0 0 0)
  apply gridDims_set2d
  exact replicate_dims size

lemma preMaze_start_open (size : Nat) (d : Rat) (rng : Nat → Rat) (h1 : 1 ≤ size) :
    getCell (preMaze size d rng) 0 0 = 0 := by
  unfold preMaze
  dsimp only
  apply connectivity_zero
  apply getCell_set2d_zero
  refine getCell_set2d_self size _ 0 0 0 ?_ (le_refl 0) (by omega) (le_refl 0) (by omega)
  apply density_dims
  apply carveLoop_dims
  show gridDims size (set2d (List.replicate size (List.replicate size 1)) 0 0 0)
  apply gridDims_set2d
  exact replicate_dims size

lemma preMaze_goal_open (size : Nat) (d : Rat) (rng : Nat → Rat) (h1 : 1 ≤ size) :
    getCell (preMaze size d rng) ((size : Int) - 1) ((size : Int) - 1) = 0 := by
  unfold preMaze
  dsimp only
  apply connectivity_zero
  refine getCell_set2d_self size _ _ _ 0 ?_ (by omega) (by omega) (by omega) (by omega)
  apply gridDims_set2d
  apply density_dims
  apply carveLoop_dims
  show gridDims size (set2d (List.replicate size (List.replicate size 1)) 0 0 0)
  apply gridDims_set2d
  exact replicate_dims size

/-- C6: in every grid the generator returns (size at least 2, any density,
any outcome of the random source) the start cell (0,0) and the goal cell
(size-1, size-1) are OPEN. -/
theorem generateMaze_start_goal_open :
    ∀ (size : Nat) (d : Rat) (rng : Nat → Rat), 2 ≤ size →
      getCell (generateMaze size d rng) 0 0 = 0 ∧
      getCell (generateMaze size d rng) ((size : Int) - 1) ((size : Int) - 1) = 0 := by
  intro size d rng h2
  unfold generateMaze
  dsimp only
  split
  · exact ⟨preMaze_start_open size d rng (by omega), preMaze_goal_open size d rng (by omega)⟩
  · exact ⟨createPath_zero _ _ _ _ (preMaze_start_open size d rng (by omega)),
      createPath_zero _ _ _ _ (preMaze_goal_open size d rng (by omega))⟩

/-- Witness for C6: the 2x2 generated maze with a constant random source has
open start and goal. -/
theorem generateMaze_start_goal_open_witness :
    getCell (generateMaze 2 0 (fun _ => 0)) 0 0 = 0 ∧
    getCell (generateMaze 2 0 (fun _ => 0)) ((2 : Int) - 1) ((2 : Int) - 1) = 0 :=
  generateMaze_start_goal_open 2 0 (fun _ => 0) (by decide)

/-! ## BFS soundness and the L-shaped repair (claim C1) -/

lemma bfsExpand_fold_reach (size : Nat) (m : List (List Nat)) (s0 c : Int × Int)
    (hc : Reachable size m s0 c) :
    ∀ (l : List (Int × Int)), (∀ dd ∈ l, dd ∈ directions) →
    ∀ (acc : List (List Bool) × List (Int × Int)),
      (∀ p ∈ acc.2, Reachable size m s0 p) →
      ∀ p ∈ (l.foldl (fun (st : List (List Bool) × List (Int × Int)) d =>
          if isValidPosition size (c.1 + d.1) (c.2 + d.2) ∧
              getVis st.1 (c.1 + d.1) (c.2 + d.2) = false ∧
              getCell m (c.1 + d.1) (c.2 + d.2) = 0 then
            (setVis st.1 (c.1 + d.1) (c.2 + d.2) true, st.2 ++ [(c.1 + d.1, c.2 + d.2)])
          else st) acc).2, Reachable size m s0 p := by
  intro l
  induction l with
  | nil => intro _ acc hacc p hp; exact hacc p hp
  | cons d t ih =>
    intro hsub acc hacc
    rw [List.foldl_cons]
    refine ih (fun dd hdd => hsub dd (List.mem_cons_of_mem d hdd)) _ ?_
    dsimp only
    split
    · rename_i hcond
      intro p hp
      rcases List.mem_append.mp hp with hp | hp
      · exact hacc p hp
      · rcases List.mem_singleton.mp hp with rfl
        exact Reachable.step _ hc d (hsub d (List.mem_cons_self d t)) rfl hcond.1 hcond.2.2
    · exact hacc

lemma bfsExpand_reach (size : Nat) (m : List (List Nat)) (s0 c : Int × Int)
    (acc : List (List Bool) × List (Int × Int)) (hc : Reachable size m s0 c)
    (hacc : ∀ p ∈ acc.2, Reachable size m s0 p) :
    ∀ p ∈ (bfsExpand size m c acc).2, Reachable size m s0 p := by
  unfold bfsExpand
  exact bfsExpand_fold_reach size m s0 c hc directions (fun _ h => h) acc hacc

lemma bfsLoop_sound (size : Nat) (m : List (List Nat)) (goal s0 : Int × Int) :
    ∀ (fuel : Nat) (vis : List (List Bool)) (queue : List (Int × Int)),
      (∀ p ∈ queue, Reachable size m s0 p) →
      bfsLoop size m goal fuel vis queue = true → Reachable size m s0 goal := by
  intro fuel
  induction fuel with
  | zero =>
    intro vis queue hq h
    cases queue with
    | nil => exact Bool.noConfusion h
    | cons c q => exact Bool.noConfusion h
  | succ n ih =>
    intro vis queue hq h
    cases queue with
    | nil => exact Bool.noConfusion h
    | cons c q =>
      rw [bfsLoop] at h
      split at h
      · rename_i hcg
        rw [← hcg]
        exact hq c (List.mem_cons_self c q)
      · exact ih _ _
          (bfsExpand_reach size m s0 c (vis, q) (hq c (List.mem_cons_self c q))
            (fun p hp => hq p (List.mem_cons_of_mem c hp))) h

lemma hasPath_sound (size : Nat) (m : List (List Nat)) (startP goalP : Int × Int)
    (hv : isValidPosition size startP.1 startP.2 = true)
    (ho : getCell m startP.1 startP.2 = 0)
    (h : hasPath size m startP goalP = true) : Reachable size m startP goalP := by
  unfold hasPath at h
  refine bfsLoop_sound size m goalP startP _ _ _ ?_ h
  intro p hp
  rcases List.mem_singleton.mp hp with rfl
  exact Reachable.refl p hv ho

lemma reachable_row (size : Nat) (m : List (List Nat)) (h2 : 2 ≤ size)
    (hrow : ∀ k : Nat, k < size → getCell m (k : Int) 0 = 0) :
    ∀ k : Nat, k < size → Reachable size m (0, 0) ((k : Int), 0) := by
  intro k
  induction k with
  | zero =>
    intro _
    refine Reachable.refl (0, 0) ?_ (hrow 0 (by omega))
    simp only [isValidPosition, decide_eq_true_eq]
    omega
  | succ n ih =>
    intro hn
    rw [show ((n + 1 : Nat) : Int) = (n : Int) + 1 by push_cast; ring]
    refine Reachable.step ((n : Int) + 1, 0) (ih (by omega)) (1, 0) (by decide)
      (by norm_num) ?_ ?_
    · simp only [isValidPosition, decide_eq_true_eq]
      omega
    · have := hrow (n + 1) hn
      rwa [show ((n + 1 : Nat) : Int) = (n : Int) + 1 by push_cast; ring] at this

lemma reachable_col (size : Nat) (m : List (List Nat)) (h2 : 2 ≤ size)
    (hstart : Reachable size m (0, 0) ((size : Int) - 1, 0))
    (hcol : ∀ k : Nat, k < size → getCell m ((size : Int) - 1) (k : Int) = 0) :
    ∀ k : Nat, k < size → Reachable size m (0, 0) ((size : Int) - 1, (k : Int)) := by
  intro k
  induction k with
  | zero => intro _; exact hstart
  | succ n ih =>
    intro hn
    rw [show ((n + 1 : Nat) : Int) = (n : Int) + 1 by push_cast; ring]
    refine Reachable.step ((size : Int) - 1, (n : Int) + 1) (ih (by omega)) (0, 1) (by decide)
      (by norm_num) ?_ ?_
    · simp only [isValidPosition, decide_eq_true_eq]
      omega
    · have := hcol (n + 1) hn
      rwa [show ((n + 1 : Nat) : Int) = (n : Int) + 1 by push_cast; ring] at this


lemma rowFold_dims (size : Nat) (n : Nat) (m : List (List Nat)) (hd : gridDims size m) :
    gridDims size ((List.range n).foldl (fun mm (k : Nat) => set2d mm (k : Int) 0 0) m) := by
  refine fold_pres (gridDims size) _ _ ?_ _ hd
  intro b a hb
  exact gridDims_set2d _ _ _ _ _ hb

lemma rowFold_zero (n : Nat) (m : List (List Nat)) (x y : Int) (h : getCell m x y = 0) :
    getCell ((List.range n).foldl (fun mm (k : Nat) => set2d mm (k : Int) 0 0) m) x y = 0 := by
  refine fold_pres (fun mm => getCell mm x y = 0) _ _ ?_ _ h
  intro b a hb
  exact getCell_set2d_zero _ _ _ _ _ hb

lemma colFold_dims (size : Nat) (c : Int) (n : Nat) (m : List (List Nat))
    (hd : gridDims size m) :
    gridDims size ((List.range n).foldl (fun mm (k : Nat) => set2d mm c (k : Int) 0) m) := by
  refine fold_pres (gridDims size) _ _ ?_ _ hd
  intro b a hb
  exact gridDims_set2d _ _ _ _ _ hb

lemma colFold_zero (c : Int) (n : Nat) (m : List (List Nat)) (x y : Int)
    (h : getCell m x y = 0) :
    getCell ((List.range n).foldl (fun mm (k : Nat) => set2d mm c (k : Int) 0) m) x y = 0 := by
  refine fold_pres (fun mm => getCell mm x y = 0) _ _ ?_ _ h
  intro b a hb
  exact getCell_set2d_zero _ _ _ _ _ hb

lemma rowFold_open (size : Nat) (m : List (List Nat)) (hd : gridDims size m)
    (h1 : 1 ≤ size) : ∀ n : Nat, n ≤ size → ∀ k : Nat, k < n →
    getCell ((List.range n).foldl (fun mm (k : Nat) => set2d mm (k : Int) 0 0) m) (k : Int) 0 = 0 := by
  intro n
  induction n with
  | zero => intro _ k hk; omega
  | succ n ih =>
    intro hns k hk
    rw [List.range_succ, List.foldl_append, List.foldl_cons, List.foldl_nil]
    by_cases hkn : k < n
    · exact getCell_set2d_zero _ _ _ _ _ (ih (by omega) k hkn)
    · have hkeq : k = n := by omega
      subst hkeq
      exact getCell_set2d_self size _ _ _ _ (rowFold_dims size k m hd)
        (by omega) (by omega) (by omega) (by omega)

lemma colFold_open (size : Nat) (m : List (List Nat)) (hd : gridDims size m)
    (h1 : 1 ≤ size) : ∀ n : Nat, n ≤ size → ∀ k : Nat, k < n →
    getCell ((List.range n).foldl (fun mm (k : Nat) => set2d mm ((size : Int) - 1) (k : Int) 0) m)
      ((size : Int) - 1) (k : Int) = 0 := by
  intro n
  induction n with
  | zero => intro _ k hk; omega
  | succ n ih =>
    intro hns k hk
    rw [List.range_succ, List.foldl_append, List.foldl_cons, List.foldl_nil]
    by_cases hkn : k < n
    · exact getCell_set2d_zero _ _ _ _ _ (ih (by omega) k hkn)
    · have hkeq : k = n := by omega
      subst hkeq
      exact getCell_set2d_self size _ _ _ _
        (colFold_dims size ((size : Int) - 1) k m hd)
        (by omega) (by omega) (by omega) (by omega)

lemma createPath_L_open (size : Nat) (m : List (List Nat)) (hd : gridDims size m)
    (h2 : 2 ≤ size) :
    (∀ k : Nat, k < size →
      getCell (createPathToGoal m ((size : Int) - 1, (size : Int) - 1)) (k : Int) 0 = 0) ∧
    (∀ k : Nat, k < size →
      getCell (createPathToGoal m ((size : Int) - 1, (size : Int) - 1))
        ((size : Int) - 1) (k : Int) = 0) := by
  have hn : ((size : Int) - 1).toNat = size - 1 := by omega
  have hd1 : gridDims size ((List.range (size - 1)).foldl
      (fun mm (k : Nat) => set2d mm (k : Int) 0 0) m) := rowFold_dims size (size - 1) m hd
  constructor
  · intro k hk
    unfold createPathToGoal
    dsimp only
    rw [hn]
    refine getCell_set2d_zero _ _ _ _ _ ?_
    by_cases hks : k < size - 1
    · refine colFold_zero _ _ _ _ _ ?_
      exact rowFold_open size m hd (by omega) (size - 1) (by omega) k hks
    · have hkeq : k = size - 1 := by omega
      have hcast : (k : Int) = (size : Int) - 1 := by omega
      rw [hcast]
      have h0 := colFold_open size _ hd1 (by omega) (size - 1) (by omega) 0 (by omega)
      simpa using h0
  · intro k hk
    unfold createPathToGoal
    dsimp only
    rw [hn]
    by_cases hks : k < size - 1
    · refine getCell_set2d_zero _ _ _ _ _ ?_
      exact colFold_open size _ hd1 (by omega) (size - 1) (by omega) k hks
    · have hkeq : k = size - 1 := by omega
      have hcast : (k : Int) = (size : Int) - 1 := by omega
      rw [hcast]
      refine getCell_set2d_self size _ _ _ _ ?_ (by omega) (by omega) (by omega) (by omega)
      exact colFold_dims size ((size : Int) - 1) (size - 1) _ hd1

/-- C1: every grid the generator returns (size at least 2, any density, any
outcomes of the random source within Math.random's [0,1) contract or not)
contains a start-to-goal connection of OPEN cells under 4-directional
adjacency: either the final BFS check succeeds, whose dequeued cells are all
reachable, or the deterministic L-shaped repair carves an explicit open
corridor along the top row and right column. -/
theorem generateMaze_reachable :
    ∀ (size : Nat) (d : Rat) (rng : Nat → Rat), 2 ≤ size →
      Reachable size (generateMaze size d rng) (0, 0)
        ((size : Int) - 1, (size : Int) - 1) := by
  intro size d rng h2
  unfold generateMaze
  dsimp only
  split
  · rename_i hp
    refine hasPath_sound size _ (0, 0) _ ?_ (preMaze_start_open size d rng (by omega)) hp
    simp only [isValidPosition, decide_eq_true_eq]
    omega
  · have hd := preMaze_dims size d rng
    obtain ⟨hrow, hcol⟩ := createPath_L_open size _ hd h2
    have hrowR := reachable_row size _ h2 hrow (size - 1) (by omega)
    have hcast : ((size - 1 : Nat) : Int) = (size : Int) - 1 := by omega
    rw [hcast] at hrowR
    have hcolR := reachable_col size _ h2 hrowR hcol (size - 1) (by omega)
    rwa [hcast] at hcolR

/-- Witness for C1: the generated 2x2 maze with a constant random source has
a start-to-goal path. -/
theorem generateMaze_reachable_witness :
    Reachable 2 (generateMaze 2 0 (fun _ => 0)) (0, 0) ((2 : Int) - 1, (2 : Int) - 1) :=
  generateMaze_reachable 2 0 (fun _ => 0) (by decide)

end MazeRL
